import Mathlib

/-!
Verification development for the Gnoke Gas persistence core and legacy importer
(`db-core.js`, `db-sales.js`, `migrate.js`).

The JavaScript modules are shallowly embedded:

* the Engine (`DB` in `db-core.js`) becomes a pure state machine over an
  abstract database value `D`: SQL statements are functions
  `D → Except E (D × RunInfo)`, the IndexedDB blob is a `stored` field, and the
  dirty flag is a `Bool`.  Ghost counters (`saveCount`, `persistCalls`,
  `dirtySets`) count the underlying `_saveToIDB` writes, the `persist()`
  invocations and the `_dirty = true` assignments, so that "persists exactly
  once" style properties are stated as counter increments;
* the relational layer (`db-sales.js`, the SQL statements issued by
  `migrate.js`) becomes a record of lists of rows (`days`, `sales`,
  `settings`) together with the SQLite rowid counters;
* JavaScript numbers are rationals (`Rat`), date strings are `String`
  compared lexicographically (as SQLite compares them), and `parseFloat` /
  `parseInt` are modelled on plain decimal literals (optional sign, digits,
  optional fraction), returning `none` for NaN so that `|| 0` becomes
  `Option.getD 0`.
-/

set_option maxHeartbeats 1000000

attribute [local semireducible] Rat.add Rat.sub Rat.mul Rat.inv List.merge List.mergeSort

/-- Result record of a successful write statement: `{ changes, lastInsertRowid }`
as returned by `DB.run` / `_runInTx` in `db-core.js`. -/
structure RunInfo where
  changes : Nat
  lastInsertRowid : Nat
deriving DecidableEq

/-- A single SQL write statement, acting on the abstract database value and
either failing with a statement-level error or returning the new database
value together with its `RunInfo`. -/
def Stmt (D E : Type) : Type := D → Except E (D × RunInfo)

/-- The Engine state of `db-core.js`: the optional live database handle `_db`,
the `_dirty` flag, the blob currently stored in IndexedDB, plus ghost counters
for the number of `_saveToIDB` calls (`saveCount`), of `persist()` invocations
(`persistCalls`) and of `_dirty = true` assignments (`dirtySets`). -/
structure EngineState (D : Type) where
  db : Option D
  dirty : Bool
  stored : Option D
  saveCount : Nat
  persistCalls : Nat
  dirtySets : Nat
deriving DecidableEq

/-- Engine-level errors: `NotInitialized` (thrown when `_db` is null) or a
propagated statement failure. -/
inductive EngErr (E : Type) where
  | notInit : EngErr E
  | stmtErr (e : E) : EngErr E
deriving DecidableEq

namespace DB

/-- `persist()` from `db-core.js`: `if (!_db || !_dirty) return;` then
`await _saveToIDB(_db.export()); _dirty = false;`.  The `persistCalls` ghost
counter records the invocation; `saveCount` records the actual durable write. -/
def persist {D : Type} (st : EngineState D) : EngineState D :=
  let st' := { st with persistCalls := st.persistCalls + 1 }
  match st.db with
  | none => st'
  | some d =>
      if st.dirty then
        { st' with stored := some d, dirty := false, saveCount := st.saveCount + 1 }
      else st'

/-- `DB.run(sql, params)` from `db-core.js`: throws `NotInitialized` when
uninitialized; otherwise executes the statement (propagating its failure with
the state untouched, since a single failing SQLite statement leaves the
database unchanged), marks dirty, calls `persist()` and returns
`{ changes, lastInsertRowid }`. -/
def run {D E : Type} (stmt : Stmt D E) (st : EngineState D) :
    Except (EngErr E) RunInfo × EngineState D :=
  match st.db with
  | none => (Except.error EngErr.notInit, st)
  | some d =>
      match stmt d with
      | Except.error e => (Except.error (EngErr.stmtErr e), st)
      | Except.ok (d', info) =>
          let st1 := { st with db := some d', dirty := true, dirtySets := st.dirtySets + 1 }
          (Except.ok info, persist st1)

/-- Sequential application of the statements issued through `_runInTx` inside a
transaction body, stopping at the first failure. -/
def applyOps {D E : Type} : List (Stmt D E) → D → Except E D
  | [], d => Except.ok d
  | op :: rest, d =>
      match op d with
      | Except.error e => Except.error e
      | Except.ok (d', _) => applyOps rest d'

/-- `DB.transaction(fn)` from `db-core.js`, with the body `fn` given as the
ordered list of statements it runs through `_runInTx`: `BEGIN`, run the
statements, `COMMIT`, set dirty, `persist()`; on any failure `ROLLBACK` (the
database value reverts to its pre-transaction state) and re-raise. -/
def transaction {D E : Type} (ops : List (Stmt D E)) (st : EngineState D) :
    Except (EngErr E) Unit × EngineState D :=
  match st.db with
  | none => (Except.error EngErr.notInit, st)
  | some d =>
      match applyOps ops d with
      | Except.error e => (Except.error (EngErr.stmtErr e), st)
      | Except.ok d' =>
          let st1 := { st with db := some d', dirty := true, dirtySets := st.dirtySets + 1 }
          (Except.ok (), persist st1)

end DB

namespace DB

/-- If the statements up to position `k` succeed and the `k`-th statement then
fails, the whole sequential application fails with that same error. -/
theorem applyOps_error_at {D E : Type} :
    ∀ (ops : List (Stmt D E)) (d : D) (k : Nat) (hk : k < ops.length)
      (dk : D) (e : E),
      applyOps (ops.take k) d = Except.ok dk →
      ops.get ⟨k, hk⟩ dk = Except.error e →
      applyOps ops d = Except.error e
  | [], _, k, hk, _, _, _, _ => absurd hk (by simp)
  | op :: rest, d, 0, _, dk, e, htake, hfail => by
      simp only [List.take_zero, applyOps] at htake
      cases htake
      simp only [List.get] at hfail
      simp [applyOps, hfail]
  | op :: rest, d, k + 1, hk, dk, e, htake, hfail => by
      simp only [List.take_succ_cons, applyOps] at htake
      cases hop : op d with
      | error e' => rw [hop] at htake; exact absurd htake (by simp)
      | ok p =>
          rw [hop] at htake
          simp only [applyOps, hop]
          exact applyOps_error_at rest p.1 k (by simpa using hk) dk e htake hfail

end DB

/-- C1: for an initialized engine and an ordered list of write operations run
through `transaction`, if the `k`-th operation fails then no change is
committed, the original failure is re-raised and the dirty flag (indeed the
whole engine state) is exactly as before the transaction; on full success the
composite change is committed, the dirty flag is set exactly once
(`dirtySets + 1`) and `persist` runs exactly once (`persistCalls + 1`,
`saveCount + 1`). -/
theorem c1_transaction_atomicity {D E : Type} (st : EngineState D) (d : D)
    (hdb : st.db = some d) (ops : List (Stmt D E)) :
    (∀ (k : Nat) (hk : k < ops.length) (dk : D) (e : E),
        DB.applyOps (ops.take k) d = Except.ok dk →
        ops.get ⟨k, hk⟩ dk = Except.error e →
        DB.transaction ops st = (Except.error (EngErr.stmtErr e), st)) ∧
    (∀ d' : D, DB.applyOps ops d = Except.ok d' →
        DB.transaction ops st =
          (Except.ok (), { st with db := some d', dirty := false, stored := some d',
                                   saveCount := st.saveCount + 1,
                                   persistCalls := st.persistCalls + 1,
                                   dirtySets := st.dirtySets + 1 })) := by
  constructor
  · intro k hk dk e htake hfail
    have hall : DB.applyOps ops d = Except.error e :=
      DB.applyOps_error_at ops d k hk dk e htake hfail
    simp [DB.transaction, hdb, hall]
  · intro d' hall
    simp [DB.transaction, hdb, hall, DB.persist]

/-- Closed witness for `c1_transaction_atomicity`: a two-statement transaction
over `D = Nat` whose second statement fails leaves the engine state
untouched and re-raises the failure. -/
theorem c1_transaction_atomicity_witness :
    DB.transaction (D := Nat) (E := Unit)
        [fun n => Except.ok (n + 1, ⟨1, 0⟩), fun _ => Except.error ()]
        ⟨some 0, false, some 0, 0, 0, 0⟩ =
      (Except.error (EngErr.stmtErr ()), ⟨some 0, false, some 0, 0, 0, 0⟩) :=
  (c1_transaction_atomicity ⟨some 0, false, some 0, 0, 0, 0⟩ 0 rfl
      [fun n => Except.ok (n + 1, ⟨1, 0⟩), fun _ => Except.error ()]).1
    1 (by decide) 1 () rfl rfl

/-- C3: `persist` performs the underlying durable write only when the dirty
flag is set (and the handle exists), clearing the flag on success; a second
consecutive `persist` with no intervening write performs no further durable
write, and any single call performs at most one. -/
theorem c3_persist_gating {D : Type} (st : EngineState D) :
    (st.dirty = false → DB.persist st = { st with persistCalls := st.persistCalls + 1 }) ∧
    (st.db = none → DB.persist st = { st with persistCalls := st.persistCalls + 1 }) ∧
    (∀ d : D, st.db = some d → st.dirty = true →
        DB.persist st = { st with stored := some d, dirty := false,
                                  saveCount := st.saveCount + 1,
                                  persistCalls := st.persistCalls + 1 }) ∧
    (DB.persist (DB.persist st)).saveCount = (DB.persist st).saveCount ∧
    (DB.persist st).saveCount ≤ st.saveCount + 1 := by
  refine ⟨?_, ?_, ?_, ?_, ?_⟩
  · intro hd
    cases hdb : st.db <;> simp [DB.persist, hdb, hd]
  · intro hdb
    simp [DB.persist, hdb]
  · intro d hdb hd
    simp [DB.persist, hdb, hd]
  · cases hdb : st.db with
    | none => simp [DB.persist, hdb]
    | some d => cases hd : st.dirty <;> simp [DB.persist, hdb, hd]
  · cases hdb : st.db with
    | none => simp [DB.persist, hdb]
    | some d => cases hd : st.dirty <;> simp [DB.persist, hdb, hd]

/-- Closed witness for `c3_persist_gating`: a dirty initialized state performs
exactly one durable write; calling `persist` again writes nothing further. -/
theorem c3_persist_gating_witness :
    DB.persist (D := Nat) ⟨some 5, true, none, 0, 0, 0⟩ =
        { (⟨some 5, true, none, 0, 0, 0⟩ : EngineState Nat) with
            stored := some 5, dirty := false, saveCount := 1, persistCalls := 1 } ∧
      (DB.persist (DB.persist (D := Nat) ⟨some 5, true, none, 0, 0, 0⟩)).saveCount =
        (DB.persist (D := Nat) ⟨some 5, true, none, 0, 0, 0⟩).saveCount :=
  ⟨(c3_persist_gating ⟨some 5, true, none, 0, 0, 0⟩).2.2.1 5 rfl rfl,
    (c3_persist_gating ⟨some 5, true, none, 0, 0, 0⟩).2.2.2.1⟩

/-- C9: `run` before `init` fails with `NotInitialized` and changes nothing;
for an initialized state a failing statement propagates its error with the
dirty flag untouched and no persist; a successful statement marks dirty
(`dirtySets + 1`) and then calls `persist` (`persistCalls + 1`, one durable
write). -/
theorem c9_run_error_handling {D E : Type} (st : EngineState D) (stmt : Stmt D E) :
    (st.db = none → DB.run stmt st = (Except.error EngErr.notInit, st)) ∧
    (∀ (d : D) (e : E), st.db = some d → stmt d = Except.error e →
        DB.run stmt st = (Except.error (EngErr.stmtErr e), st)) ∧
    (∀ (d d' : D) (info : RunInfo), st.db = some d → stmt d = Except.ok (d', info) →
        DB.run stmt st =
          (Except.ok info, { st with db := some d', dirty := false, stored := some d',
                                     saveCount := st.saveCount + 1,
                                     persistCalls := st.persistCalls + 1,
                                     dirtySets := st.dirtySets + 1 })) := by
  refine ⟨?_, ?_, ?_⟩
  · intro hdb
    simp [DB.run, hdb]
  · intro d e hdb hs
    simp [DB.run, hdb, hs]
  · intro d d' info hdb hs
    simp [DB.run, hdb, hs, DB.persist]

/-- Closed witness for `c9_run_error_handling`: a failing statement on an
initialized engine propagates and leaves the state unchanged. -/
theorem c9_run_error_handling_witness :
    DB.run (D := Nat) (E := Unit) (fun _ => Except.error ())
        ⟨some 3, true, some 3, 2, 2, 2⟩ =
      (Except.error (EngErr.stmtErr ()), ⟨some 3, true, some 3, 2, 2, 2⟩) :=
  (c9_run_error_handling ⟨some 3, true, some 3, 2, 2, 2⟩ (fun _ => Except.error ())).2.1
    3 () rfl rfl

/-! ### String and number primitives

Character-level models of the JavaScript string operations used by
`_parseCSV` (`split`, `trim`, `startsWith`) and of `parseFloat` / `parseInt`
on plain decimal literals (`parseFloat` returns `none` for NaN, so the
JavaScript `|| 0` idiom becomes `Option.getD 0`). -/

/-- `String.prototype.split(sep)` on the character list: splitting the empty
string yields `[""]`, exactly as in JavaScript. -/
def splitOnChar (sep : Char) : List Char → List (List Char)
  | [] => [[]]
  | c :: rest =>
      let r := splitOnChar sep rest
      if c = sep then [] :: r
      else
        match r with
        | [] => [[c]]
        | g :: gs => (c :: g) :: gs

/-- `String.prototype.trim()`: strip whitespace from both ends. -/
def trimChars (cs : List Char) : List Char :=
  ((cs.dropWhile Char.isWhitespace).reverse.dropWhile Char.isWhitespace).reverse

/-- `trim` lifted back to `String`. -/
def jsTrim (s : String) : String := String.mk (trimChars s.data)

/-- Lexicographic strict order on character lists: the TEXT ordering SQLite
uses for date strings and the UTF-16 code-unit order of JavaScript
`Array.prototype.sort()` (they agree on these ASCII keys). -/
def lexLt : List Char → List Char → Bool
  | [], [] => false
  | [], _ :: _ => true
  | _ :: _, [] => false
  | a :: as, b :: bs => if a < b then true else if b < a then false else lexLt as bs

/-- `lexLt` on strings. -/
def strLt (a b : String) : Bool := lexLt a.data b.data

/-- `String.prototype.startsWith(prefix)` on character lists. -/
def hasPrefixChars : List Char → List Char → Bool
  | [], _ => true
  | _ :: _, [] => false
  | p :: ps, c :: cs => p = c && hasPrefixChars ps cs

/-- Value of a digit string, most significant digit first. -/
def digitsVal (cs : List Char) : Nat :=
  cs.foldl (fun a c => a * 10 + (c.toNat - '0'.toNat)) 0

/-- Strip an optional leading sign, returning whether it was `-`. -/
def signSplit (cs : List Char) : Bool × List Char :=
  match cs with
  | c :: rest =>
      if c = '-' then (true, rest) else if c = '+' then (false, rest) else (false, cs)
  | [] => (false, cs)

/-- JavaScript `parseFloat` on plain decimal literals: skip leading
whitespace, optional sign, digits, optional `.digits`; `none` models NaN. -/
def jsParseFloat (s : String) : Option Rat :=
  let cs := s.data.dropWhile Char.isWhitespace
  let p := signSplit cs
  let intPart := p.2.takeWhile Char.isDigit
  let rest := p.2.dropWhile Char.isDigit
  let fracPart :=
    match rest with
    | c :: r => if c = '.' then r.takeWhile Char.isDigit else []
    | [] => []
  if intPart.isEmpty && fracPart.isEmpty then none
  else
    let v : Rat :=
      (digitsVal intPart : Rat) + (digitsVal fracPart : Rat) / (10 : Rat) ^ fracPart.length
    some (if p.1 then -v else v)

/-- JavaScript `parseInt` (radix 10) on plain integer literals: skip leading
whitespace, optional sign, digits; `none` models NaN. -/
def jsParseInt (s : String) : Option Int :=
  let cs := s.data.dropWhile Char.isWhitespace
  let p := signSplit cs
  let ds := p.2.takeWhile Char.isDigit
  if ds.isEmpty then none
  else some (if p.1 then -(digitsVal ds : Int) else (digitsVal ds : Int))

namespace Migrate

/-! ### `_parseCSV` from `migrate.js` -/

/-- One emitted sale row of `_parseCSV`: `{ seq, kg, price, comments }`. -/
structure CsvSale where
  seq : Int
  kg : Rat
  price : Rat
  comments : String
deriving DecidableEq

/-- The result record of `_parseCSV`: `{ unitPrice, openingStock, sales }`. -/
structure CsvParsed where
  unitPrice : Rat
  openingStock : Rat
  sales : List CsvSale
deriving DecidableEq

/-- The line list of `_parseCSV`: split on `'\n'`, trim each line, keep the
lines that are non-empty and do not start with the `S/NO` header. -/
def csvLines (csvString : String) : List String :=
  (((splitOnChar '\n' csvString.data).map (fun cs => String.mk (trimChars cs))).filter
    (fun l => !(l == "") && !(hasPrefixChars "S/NO".data l.data)))

/-- `line.split(',')` of one CSV line. -/
def rowCols (line : String) : List String :=
  (splitOnChar ',' line.data).map String.mk

/-- `parseInt(cols[0]) || 0`. -/
def rowSeq (line : String) : Int := (jsParseInt ((rowCols line).getD 0 "")).getD 0

/-- `parseFloat(cols[1]) || 0`. -/
def rowKg (line : String) : Rat := (jsParseFloat ((rowCols line).getD 1 "")).getD 0

/-- `parseFloat(cols[2]) || 0`. -/
def rowPrice (line : String) : Rat := (jsParseFloat ((rowCols line).getD 2 "")).getD 0

/-- `(cols[3] || '').trim()`. -/
def rowComments (line : String) : String := jsTrim ((rowCols line).getD 3 "")

/-- `parseFloat(cols[4]) || 0`. -/
def rowUnit (line : String) : Rat := (jsParseFloat ((rowCols line).getD 4 "")).getD 0

/-- `parseFloat(cols[5]) || 0`. -/
def rowBalance (line : String) : Rat := (jsParseFloat ((rowCols line).getD 5 "")).getD 0

/-- The sale object `{ seq, kg, price, comments }` pushed for a row. -/
def rowSale (line : String) : CsvSale :=
  ⟨rowSeq line, rowKg line, rowPrice line, rowComments line⟩

/-- Loop state of `_parseCSV`: accumulated `sales`, current `unitPrice`,
current `openStock` and the `firstRow` flag. -/
structure CsvAcc where
  sales : List CsvSale
  unitPrice : Rat
  openStock : Rat
  firstRow : Bool
deriving DecidableEq

/-- One iteration of the `for (const line of lines)` loop of `_parseCSV`. -/
def csvStep (acc : CsvAcc) (line : String) : CsvAcc :=
  if (rowCols line).length < 4 then acc
  else
    let kg := rowKg line
    let unit := rowUnit line
    let acc1 := if 0 < unit then { acc with unitPrice := unit } else acc
    let acc2 :=
      if acc1.firstRow = true ∧ 0 < kg then
        { acc1 with openStock := rowBalance line + kg, firstRow := false }
      else acc1
    if 0 < kg then { acc2 with sales := acc2.sales ++ [rowSale line] } else acc2

/-- `_parseCSV` from `migrate.js`: `null` when no line survives the header and
blank-line filter, otherwise the folded `{ unitPrice, openingStock, sales }`. -/
def _parseCSV (csvString : String) : Option CsvParsed :=
  let lines := csvLines csvString
  if lines.isEmpty then none
  else
    let acc := lines.foldl csvStep ⟨[], 0, 0, true⟩
    some ⟨acc.unitPrice, acc.openStock, acc.sales⟩

end Migrate

namespace Migrate

/-- The lines `_parseCSV` actually processes: valid lines with at least 4
columns (shorter lines are skipped by the `cols.length < 4` guard). -/
def csvRows (s : String) : List String :=
  (csvLines s).filter (fun l => decide (4 ≤ (rowCols l).length))

/-- The processed rows with positive quantity. -/
def posRows (s : String) : List String :=
  (csvRows s).filter (fun l => decide (0 < rowKg l))

/-- Specification reading of the emitted sales: exactly the processed rows
with positive quantity, in file order. -/
def salesSpec (s : String) : List CsvSale := (posRows s).map rowSale

/-- The positive unit-price column values of the processed rows, in file
order. -/
def unitsOf (ls : List String) : List Rat :=
  ((ls.filter (fun l => decide (4 ≤ (rowCols l).length))).map rowUnit).filter
    (fun u => decide (0 < u))

/-- Specification reading of the unit price: the last positive unit-price
column value in file order, defaulting to 0. -/
def unitSpec (s : String) : Rat := (unitsOf (csvLines s)).getLast?.getD 0

/-- Specification reading of the opening stock: balance plus quantity of the
first processed row with positive quantity, defaulting to 0. -/
def openSpec (s : String) : Rat :=
  match (posRows s).head? with
  | some l => rowBalance l + rowKg l
  | none => 0

theorem csvStep_sales (acc : CsvAcc) (l : String) :
    (csvStep acc l).sales =
      acc.sales ++ (if 4 ≤ (rowCols l).length ∧ 0 < rowKg l then [rowSale l] else []) := by
  by_cases h4 : (rowCols l).length < 4
  · have hn : ¬ (4 ≤ (rowCols l).length ∧ 0 < rowKg l) := by
      intro h
      omega
    simp [csvStep, h4, hn]
  · have h4' : 4 ≤ (rowCols l).length := by omega
    by_cases hk : 0 < rowKg l <;> by_cases hu : 0 < rowUnit l <;>
      by_cases hf : acc.firstRow = true <;>
        simp [csvStep, h4, h4', hk, hu, hf]

theorem csvStep_unitPrice (acc : CsvAcc) (l : String) :
    (csvStep acc l).unitPrice =
      if 4 ≤ (rowCols l).length ∧ 0 < rowUnit l then rowUnit l else acc.unitPrice := by
  by_cases h4 : (rowCols l).length < 4
  · have hn : ¬ (4 ≤ (rowCols l).length ∧ 0 < rowUnit l) := by
      intro h
      omega
    simp [csvStep, h4, hn]
  · have h4' : 4 ≤ (rowCols l).length := by omega
    by_cases hk : 0 < rowKg l <;> by_cases hu : 0 < rowUnit l <;>
      by_cases hf : acc.firstRow = true <;>
        simp [csvStep, h4, h4', hk, hu, hf]

theorem csvStep_firstRow (acc : CsvAcc) (l : String) :
    (csvStep acc l).firstRow =
      (acc.firstRow &&
        !(decide (4 ≤ (rowCols l).length) && decide (0 < rowKg l))) := by
  by_cases h4 : (rowCols l).length < 4
  · have h4' : ¬ (4 ≤ (rowCols l).length) := by omega
    simp [csvStep, h4, h4']
  · have h4' : 4 ≤ (rowCols l).length := by omega
    by_cases hk : 0 < rowKg l <;> by_cases hu : 0 < rowUnit l <;>
      by_cases hf : acc.firstRow = true <;>
        simp [csvStep, h4, h4', hk, hu, hf]

theorem csvStep_openStock (acc : CsvAcc) (l : String) :
    (csvStep acc l).openStock =
      if acc.firstRow = true ∧ 4 ≤ (rowCols l).length ∧ 0 < rowKg l then
        rowBalance l + rowKg l
      else acc.openStock := by
  by_cases h4 : (rowCols l).length < 4
  · have hn : ¬ (acc.firstRow = true ∧ 4 ≤ (rowCols l).length ∧ 0 < rowKg l) := by
      intro h
      omega
    simp [csvStep, h4, hn]
  · have h4' : 4 ≤ (rowCols l).length := by omega
    by_cases hk : 0 < rowKg l <;> by_cases hu : 0 < rowUnit l <;>
      by_cases hf : acc.firstRow = true <;>
        simp [csvStep, h4, h4', hk, hu, hf]

theorem foldl_csvStep_sales (ls : List String) (acc : CsvAcc) :
    (ls.foldl csvStep acc).sales =
      acc.sales ++
        ((ls.filter (fun l =>
            decide (4 ≤ (rowCols l).length) && decide (0 < rowKg l))).map rowSale) := by
  induction ls generalizing acc with
  | nil => simp
  | cons l rest ih =>
      rw [List.foldl_cons, ih, csvStep_sales]
      by_cases h4 : 4 ≤ (rowCols l).length <;> by_cases hk : 0 < rowKg l <;>
        simp [h4, hk, List.filter_cons]

theorem getLast?_cons_getD {α : Type} (x : α) (xs : List α) (d : α) :
    ((x :: xs).getLast?).getD d = (xs.getLast?).getD x := by
  induction xs generalizing x d with
  | nil => rfl
  | cons y ys ih =>
      rw [List.getLast?_cons_cons]
      cases hys : (y :: ys).getLast? with
      | none => simp at hys
      | some z => simp

theorem foldl_csvStep_unit (ls : List String) (acc : CsvAcc) :
    (ls.foldl csvStep acc).unitPrice = ((unitsOf ls).getLast?).getD acc.unitPrice := by
  induction ls generalizing acc with
  | nil => simp [unitsOf]
  | cons l rest ih =>
      rw [List.foldl_cons, ih]
      by_cases h4 : 4 ≤ (rowCols l).length <;> by_cases hu : 0 < rowUnit l <;>
        simp [unitsOf, List.filter_cons, h4, hu, csvStep_unitPrice, getLast?_cons_getD]

theorem foldl_csvStep_open_done (ls : List String) (acc : CsvAcc)
    (h : acc.firstRow = false) :
    (ls.foldl csvStep acc).openStock = acc.openStock := by
  induction ls generalizing acc with
  | nil => rfl
  | cons l rest ih =>
      rw [List.foldl_cons]
      have h1 : (csvStep acc l).firstRow = false := by
        rw [csvStep_firstRow, h]
        rfl
      rw [ih _ h1, csvStep_openStock]
      simp [h]

theorem foldl_csvStep_open (ls : List String) (acc : CsvAcc)
    (h : acc.firstRow = true) :
    (ls.foldl csvStep acc).openStock =
      match (ls.filter (fun l =>
          decide (4 ≤ (rowCols l).length) && decide (0 < rowKg l))).head? with
      | some l => rowBalance l + rowKg l
      | none => acc.openStock := by
  induction ls generalizing acc with
  | nil => rfl
  | cons l rest ih =>
      rw [List.foldl_cons]
      by_cases hpass : 4 ≤ (rowCols l).length ∧ 0 < rowKg l
      · have h1 : (csvStep acc l).firstRow = false := by
          rw [csvStep_firstRow, h]
          simp [hpass.1, hpass.2]
        have h2 : (csvStep acc l).openStock = rowBalance l + rowKg l := by
          rw [csvStep_openStock]
          simp [h, hpass.1, hpass.2]
        rw [foldl_csvStep_open_done rest _ h1, h2, List.filter_cons]
        simp [hpass.1, hpass.2]
      · have h1 : (csvStep acc l).firstRow = true := by
          rw [csvStep_firstRow, h]
          rcases Decidable.not_and_iff_or_not.mp hpass with h4 | hk
          · simp [h4]
          · simp [hk]
        have h2 : (csvStep acc l).openStock = acc.openStock := by
          rw [csvStep_openStock]
          have : ¬ (acc.firstRow = true ∧ 4 ≤ (rowCols l).length ∧ 0 < rowKg l) := by
            intro hx
            exact hpass ⟨hx.2.1, hx.2.2⟩
          simp [this]
        rw [ih _ h1, h2, List.filter_cons]
        have hfalse : (decide (4 ≤ (rowCols l).length) && decide (0 < rowKg l)) = false := by
          rcases Decidable.not_and_iff_or_not.mp hpass with h4 | hk
          · simp [h4]
          · simp [hk]
        simp [hfalse]

end Migrate

namespace Migrate

theorem posRows_filter (s : String) :
    posRows s =
      (csvLines s).filter (fun l =>
        decide (4 ≤ (rowCols l).length) && decide (0 < rowKg l)) := by
  rw [posRows, csvRows, List.filter_filter]
  exact List.filter_congr (fun a _ => by rw [Bool.and_comm])

end Migrate

/-- C4: for every CSV input string, `_parseCSV` skips blank lines, the header
row and lines with fewer than 4 columns (only `csvRows` matter); the emitted
sales are exactly the processed rows with positive quantity; the opening
stock is balance plus quantity of the first positive-quantity row; the unit
price is the last positive unit-price column value in file order; and on the
concrete two-row input the result is `unitPrice = 1250`,
`openingStock = 120`, sales `{1,5,6250}` and `{2,3,3750}`. -/
theorem c4_parseCSV_contract :
    (∀ s : String,
        Migrate._parseCSV s =
          if Migrate.csvLines s = [] then none
          else some ⟨Migrate.unitSpec s, Migrate.openSpec s, Migrate.salesSpec s⟩) ∧
    Migrate._parseCSV "1,5,6250,Paid,1250,115.00\n2,3,3750,Paid,1250,112.00" =
      some ⟨1250, 120, [⟨1, 5, 6250, "Paid"⟩, ⟨2, 3, 3750, "Paid"⟩]⟩ := by
  constructor
  · intro s
    by_cases h : Migrate.csvLines s = []
    · simp [Migrate._parseCSV, h]
    · have hne : (Migrate.csvLines s).isEmpty = false := by
        cases hcl : Migrate.csvLines s
        · exact absurd hcl h
        · rfl
      rw [Migrate._parseCSV]
      simp only [hne, Bool.false_eq_true, if_false, if_neg h, Option.some.injEq,
        Migrate.CsvParsed.mk.injEq]
      refine ⟨?_, ?_, ?_⟩
      · rw [Migrate.foldl_csvStep_unit]
        rfl
      · rw [Migrate.foldl_csvStep_open _ _ rfl]
        simp only [Migrate.openSpec, Migrate.posRows_filter]
      · rw [Migrate.foldl_csvStep_sales]
        simp [Migrate.salesSpec, Migrate.posRows_filter]
  · decide

/-! ### Relational layer (`db-sales.js` and the SQL statements of `migrate.js`)

The SQLite database is modelled as lists of rows plus the rowid counters.
`lastRowid` models `last_insert_rowid()` (0 on a fresh connection). -/

/-- A row of the `days` table. -/
structure Day where
  id : Nat
  date : String
  opening_stock : Rat
  unit_price : Rat
deriving DecidableEq

/-- A row of the `sales` table. -/
structure Sale where
  id : Nat
  day_id : Nat
  seq : Int
  kg : Rat
  price : Rat
  comments : String
deriving DecidableEq

/-- The relational state: `days`, `sales` and `settings` tables, the next
fresh rowids and the connection's `last_insert_rowid()`. -/
structure SalesDB where
  days : List Day
  sales : List Sale
  settings : List (String × String)
  nextDayId : Nat
  nextSaleId : Nat
  lastRowid : Nat
deriving DecidableEq

namespace DBSales

/-- `getDay(date)`: `SELECT * FROM days WHERE date = ?`, first row or null. -/
def getDay (st : SalesDB) (date : String) : Option Day :=
  st.days.find? (fun d => d.date == date)

/-- `getSetting(key)`: `SELECT value FROM settings WHERE key = ?`. -/
def getSetting (st : SalesDB) (key : String) : Option String :=
  (st.settings.find? (fun p => p.1 == key)).map Prod.snd

/-- `saveSetting(key, value)`: `INSERT … ON CONFLICT(key) DO UPDATE`. -/
def saveSetting (st : SalesDB) (key value : String) : SalesDB :=
  if (st.settings.find? (fun p => p.1 == key)).isSome then
    { st with settings := st.settings.map (fun p => if p.1 == key then (p.1, value) else p) }
  else
    { st with settings := st.settings ++ [(key, value)] }

/-- `INSERT INTO days (date, opening_stock, unit_price) VALUES (?, ?, ?)`,
returning the fresh rowid. -/
def insertDay (st : SalesDB) (date : String) (os up : Rat) : SalesDB × Nat :=
  ({ st with days := st.days ++ [⟨st.nextDayId, date, os, up⟩],
             nextDayId := st.nextDayId + 1,
             lastRowid := st.nextDayId }, st.nextDayId)

/-- `INSERT OR IGNORE INTO days …`: when a row with this (UNIQUE) date exists
the insert is ignored and `last_insert_rowid()` keeps its previous value. -/
def insertDayIgnore (st : SalesDB) (date : String) (os up : Rat) : SalesDB × Nat :=
  if (getDay st date).isSome then (st, st.lastRowid) else insertDay st date os up

/-- `INSERT INTO sales (day_id, seq, kg, price, comments) VALUES (…)`. -/
def insertSale (st : SalesDB) (dayId : Nat) (seq : Int) (kg price : Rat)
    (comments : String) : SalesDB :=
  { st with sales := st.sales ++ [⟨st.nextSaleId, dayId, seq, kg, price, comments⟩],
            nextSaleId := st.nextSaleId + 1,
            lastRowid := st.nextSaleId }

/-- The sales rows of one day, in table order. -/
def salesOfDay (st : SalesDB) (dayId : Nat) : List Sale :=
  st.sales.filter (fun s => s.day_id == dayId)

/-- `COALESCE(SUM(s.kg), 0)` over the `LEFT JOIN sales` of one day. -/
def kgSold (st : SalesDB) (dayId : Nat) : Rat :=
  ((salesOfDay st dayId).map Sale.kg).sum

/-- The `WHERE d.date < ? … ORDER BY d.date DESC LIMIT 1` row: the day with
the greatest date strictly before `date`. -/
def latestBefore (st : SalesDB) (date : String) : Option Day :=
  (st.days.filter (fun d => strLt d.date date)).foldl
    (fun acc d =>
      match acc with
      | none => some d
      | some m => if strLt m.date d.date then some d else some m) none

/-- `getOrCreateToday()` from `db-sales.js` with `DB.today()` passed as
`date`: return the existing row, or carry forward
`opening_stock = max(0, prev.opening_stock - prev.kg_sold)` and
`unit_price = prev.unit_price` (0 and 0 with no previous day), insert the
row via the read path, run the `_persist` quirk (`UPDATE days SET
unit_price = ? WHERE date = ?`) and re-select the row. -/
def getOrCreateToday (st : SalesDB) (date : String) : Day × SalesDB :=
  match getDay st date with
  | some existing => (existing, st)
  | none =>
      let prev := latestBefore st date
      let opening_stock : Rat :=
        match prev with
        | some p => max 0 (p.opening_stock - kgSold st p.id)
        | none => 0
      let unit_price : Rat :=
        match prev with
        | some p => p.unit_price
        | none => 0
      let st1 := (insertDay st date opening_stock unit_price).1
      let updDays := st1.days.map (fun d =>
        if d.date == date then { d with unit_price := unit_price } else d)
      let st2 := { st1 with days := updDays }
      ((getDay st2 date).getD ⟨0, date, opening_stock, unit_price⟩, st2)

theorem find?_date_append_new (days : List Day) (date : String) (nd : Day)
    (up : Rat) (h : ∀ d ∈ days, (d.date == date) = false)
    (hnd : (nd.date == date) = true) :
    ((days ++ [nd]).map
        (fun d => if d.date == date then { d with unit_price := up } else d)).find?
      (fun d => d.date == date) = some { nd with unit_price := up } := by
  induction days with
  | nil => simp [List.find?, hnd]
  | cons d ds ih =>
      have hd : (d.date == date) = false := h d (by simp)
      simp only [List.cons_append, List.map_cons, List.find?]
      rw [hd]
      simp only [Bool.false_eq_true, if_false, hd]
      exact ih (fun x hx => h x (by simp [hx]))

/-- Characterization of the Day returned by `getOrCreateToday` when it
creates a new row. -/
theorem getOrCreateToday_created_fields (st : SalesDB) (date : String)
    (hnew : getDay st date = none) :
    (getOrCreateToday st date).1.opening_stock =
        (match latestBefore st date with
         | some p => max 0 (p.opening_stock - kgSold st p.id)
         | none => (0 : Rat)) ∧
    (getOrCreateToday st date).1.unit_price =
        (match latestBefore st date with
         | some p => p.unit_price
         | none => (0 : Rat)) := by
  have hall : ∀ d ∈ st.days, ((fun d : Day => d.date == date) d) ≠ true :=
    List.find?_eq_none.mp hnew
  have hall' : ∀ d ∈ st.days, (d.date == date) = false := by
    intro d hd
    exact Bool.eq_false_iff.mpr (hall d hd)
  rw [getOrCreateToday, hnew]
  simp only [getDay, insertDay]
  rw [find?_date_append_new st.days date _ _ hall' (by simp)]
  cases hp : latestBefore st date <;> simp [hp]

end DBSales

/-- C7 counterexample: with a prior Day of opening stock 10 whose sales sum
to 30 kg, the newly created Day's opening stock is 0 (clamped), not
`10 - 30 = -20` as the unclamped claim would require. -/
theorem c7_counterexample :
    (DBSales.getOrCreateToday
        ⟨[⟨1, "2026-01-01", 10, 5⟩], [⟨1, 1, 1, 30, 0, "x"⟩], [], 2, 2, 1⟩
        "2026-01-02").1.opening_stock ≠ (10 : Rat) - 30 := by decide

/-- C7 (amended): when `getOrCreateToday` creates a new Day and a prior Day
exists, the new Day's opening stock equals the prior Day's opening stock
minus the kg sold on that prior Day, clamped below at 0 (`max 0 …`), and its
unit price equals the prior Day's unit price; when no prior Day exists both
are 0. -/
theorem c7_carry_forward (st : SalesDB) (date : String)
    (hnew : DBSales.getDay st date = none) :
    (∀ p : Day, DBSales.latestBefore st date = some p →
        (DBSales.getOrCreateToday st date).1.opening_stock =
            max 0 (p.opening_stock - DBSales.kgSold st p.id) ∧
          (DBSales.getOrCreateToday st date).1.unit_price = p.unit_price) ∧
    (DBSales.latestBefore st date = none →
        (DBSales.getOrCreateToday st date).1.opening_stock = 0 ∧
          (DBSales.getOrCreateToday st date).1.unit_price = 0) := by
  have hfields := DBSales.getOrCreateToday_created_fields st date hnew
  constructor
  · intro p hp
    rw [hp] at hfields
    exact hfields
  · intro hp
    rw [hp] at hfields
    exact hfields

/-- Closed witness for `c7_carry_forward`: prior Day with opening stock 100
and 30 kg sold gives a new Day with opening stock 70 and the carried-forward
unit price 9. -/
theorem c7_carry_forward_witness :
    (DBSales.getOrCreateToday
        ⟨[⟨1, "2026-01-01", 100, 9⟩], [⟨1, 1, 1, 30, 270, ""⟩], [], 2, 2, 1⟩
        "2026-01-02").1.opening_stock = 70 ∧
    (DBSales.getOrCreateToday
        ⟨[⟨1, "2026-01-01", 100, 9⟩], [⟨1, 1, 1, 30, 270, ""⟩], [], 2, 2, 1⟩
        "2026-01-02").1.unit_price = 9 := by
  have h :=
    (c7_carry_forward
        ⟨[⟨1, "2026-01-01", 100, 9⟩], [⟨1, 1, 1, 30, 270, ""⟩], [], 2, 2, 1⟩
        "2026-01-02" (by decide)).1
      ⟨1, "2026-01-01", 100, 9⟩ (by decide)
  refine ⟨?_, h.2⟩
  rw [h.1]
  decide

/-- C10: the Day auto-created by `getOrCreateToday` never has a negative
opening stock, and when the prior Day's sales exceed its opening stock the
new opening stock is exactly 0. -/
theorem c10_opening_stock_never_negative (st : SalesDB) (date : String)
    (hnew : DBSales.getDay st date = none) :
    0 ≤ (DBSales.getOrCreateToday st date).1.opening_stock ∧
    (∀ p : Day, DBSales.latestBefore st date = some p →
        p.opening_stock < DBSales.kgSold st p.id →
        (DBSales.getOrCreateToday st date).1.opening_stock = 0) := by
  have hfields := DBSales.getOrCreateToday_created_fields st date hnew
  constructor
  · rw [hfields.1]
    cases hp : DBSales.latestBefore st date with
    | none => simp
    | some p => simp
  · intro p hp hlt
    rw [hfields.1, hp]
    simp only
    rw [max_eq_left]
    exact sub_nonpos.mpr (le_of_lt hlt)

/-- Closed witness for `c10_opening_stock_never_negative`: prior Day with
opening stock 10 and 30 kg sold yields a clamped opening stock of 0. -/
theorem c10_opening_stock_never_negative_witness :
    (DBSales.getOrCreateToday
        ⟨[⟨1, "2026-03-01", 10, 5⟩], [⟨1, 1, 1, 30, 0, "y"⟩], [], 2, 2, 1⟩
        "2026-03-02").1.opening_stock = 0 :=
  (c10_opening_stock_never_negative
      ⟨[⟨1, "2026-03-01", 10, 5⟩], [⟨1, 1, 1, 30, 0, "y"⟩], [], 2, 2, 1⟩
      "2026-03-02" (by decide)).2
    ⟨1, "2026-03-01", 10, 5⟩ (by decide) (by decide)

namespace DB

/-- `REQUIRED_TABLES` from `db-core.js`. -/
def REQUIRED_TABLES : List String := ["company", "days", "sales", "settings"]

/-- `_isSchemaCurrent`: every required table name occurs in the snapshot's
table catalog (the result of `_getExistingTables`). -/
def _isSchemaCurrent (existing : List String) : Bool :=
  REQUIRED_TABLES.all (fun t => existing.contains t)

/-- Which image `init` ends up using. -/
inductive DbSource where
  | cached : DbSource
  | seed : DbSource
deriving DecidableEq

/-- The reseed decision of `DB.init`: keep a saved snapshot only when
`_isSchemaCurrent` accepts its catalog; otherwise (or with no saved
snapshot) load the seed image. -/
def initSource (saved : Option (List String)) : DbSource :=
  match saved with
  | none => DbSource.seed
  | some cat => if _isSchemaCurrent cat then DbSource.cached else DbSource.seed

end DB

/-- C5: the schema guard accepts a snapshot iff every required table
(`company`, `days`, `sales`, `settings`) appears in its catalog; a snapshot
with `company`, `days`, `settings` but no `sales` is rejected and `init`
reseeds; and adding extra unexpected tables never turns acceptance into
rejection. -/
theorem c5_schema_guard :
    (∀ cat : List String,
        DB._isSchemaCurrent cat = true ↔ ∀ t ∈ DB.REQUIRED_TABLES, t ∈ cat) ∧
    (DB._isSchemaCurrent ["company", "days", "settings"] = false ∧
      DB.initSource (some ["company", "days", "settings"]) = DB.DbSource.seed) ∧
    (∀ cat extra : List String, DB._isSchemaCurrent cat = true →
        DB._isSchemaCurrent (cat ++ extra) = true) := by
  refine ⟨?_, by decide, ?_⟩
  · intro cat
    simp [DB._isSchemaCurrent, List.all_eq_true, List.contains]
  · intro cat extra h
    rw [DB._isSchemaCurrent, List.all_eq_true] at h ⊢
    intro t ht
    have h1 := h t ht
    simp only [List.contains, List.elem_eq_mem, decide_eq_true_eq] at h1 ⊢
    exact List.mem_append_left extra h1

/-- Closed witness for `c5_schema_guard`: an exact catalog plus an extra
table is still accepted. -/
theorem c5_schema_guard_witness :
    DB._isSchemaCurrent (["company", "days", "sales", "settings"] ++ ["extra"]) = true :=
  c5_schema_guard.2.2 ["company", "days", "sales", "settings"] ["extra"] (by decide)

namespace Migrate

/-- `MIGRATION_DONE_KEY` from `migrate.js`. -/
def MIGRATION_DONE_KEY : String := "migration_v1_done"

/-- `isDone()`: the migration marker Setting equals `"1"`. -/
def isDone (st : SalesDB) : Bool :=
  DBSales.getSetting st MIGRATION_DONE_KEY == some "1"

/-- A row of a `salesChunk_<n>` array: `{gas, price, comments}`, the numeric
fields held as the rationals `parseFloat` would produce on them (0 also
standing for a missing/NaN field, which the `|| …` defaults treat the same
way as 0). -/
structure ChunkRow where
  gas : Rat
  price : Rat
  comments : String
deriving DecidableEq

/-- The `salesMeta` record `{unitPrice, newStock}`, fields as parsed. -/
structure SalesMeta where
  unitPrice : Rat
  newStock : Rat
deriving DecidableEq

/-- A value stored in the legacy LocalForage store. -/
inductive LVal where
  | vstr (s : String) : LVal
  | varr (rows : List ChunkRow) : LVal
  | vmeta (m : SalesMeta) : LVal
deriving DecidableEq

/-- `store.getItem(key)` over the key/value pairs of the legacy store. -/
def lookupLVal (kvs : List (String × LVal)) (key : String) : Option LVal :=
  (kvs.find? (fun p => p.1 == key)).map Prod.snd

/-- `key.replace('dailySales_', '')` for a key carrying that 11-character
prefix. -/
def dateOfKey (k : String) : String := String.mk (k.data.drop 11)

/-- `parseInt(key.replace('salesChunk_', ''))` (11-character prefix), the
sort index of a chunk key. -/
def chunkIndex (k : String) : Int := (jsParseInt (String.mk (k.data.drop 11))).getD 0

/-- The `dailySales_*` keys sorted ascending (JavaScript default sort). -/
def sortedDailyKeys (allKeys : List String) : List String :=
  (allKeys.filter (fun k => hasPrefixChars "dailySales_".data k.data)).mergeSort
    (fun a b => !(strLt b a))

/-- The `salesChunk_*` keys sorted by embedded numeric index. -/
def sortedChunkKeys (allKeys : List String) : List String :=
  (allKeys.filter (fun k => hasPrefixChars "salesChunk_".data k.data)).mergeSort
    (fun a b => decide (chunkIndex a ≤ chunkIndex b))

/-- State of the migration loops: the database plus the `migratedDays`,
`migratedSales` and `skippedDays` counters. -/
structure LoopSt where
  st : SalesDB
  migratedDays : Nat
  migratedSales : Nat
  skippedDays : Nat
deriving DecidableEq

/-- Insert one historical day and its parsed sales rows: `INSERT OR IGNORE`
the day row, bail out when `lastInsertRowid` is falsy (`!dayId`), otherwise
insert every parsed sale with its original CSV `seq`. -/
def insertParsedDay (st : SalesDB) (date : String) (parsed : CsvParsed) :
    SalesDB × Option Nat :=
  let r := DBSales.insertDayIgnore st date parsed.openingStock parsed.unitPrice
  if r.2 = 0 then (r.1, none)
  else
    ((parsed.sales.foldl
        (fun s c => DBSales.insertSale s r.2 c.seq c.kg c.price c.comments) r.1),
      some r.2)

/-- One iteration of the `for (const key of dailyKeys)` loop of
`Migrate.run`: skip existing dates (counting them), skip missing/empty/
non-string blobs and unparseable or empty CSVs, otherwise insert the day
and its sales and bump the counters. -/
def migrateDailyKey (kvs : List (String × LVal)) (acc : LoopSt) (key : String) :
    LoopSt :=
  let date := dateOfKey key
  if (DBSales.getDay acc.st date).isSome then
    { acc with skippedDays := acc.skippedDays + 1 }
  else
    match lookupLVal kvs key with
    | some (LVal.vstr csv) =>
        if csv = "" then acc
        else
          match _parseCSV csv with
          | none => acc
          | some parsed =>
              if parsed.sales.isEmpty then acc
              else
                match insertParsedDay acc.st date parsed with
                | (st1, none) => { acc with st := st1 }
                | (st1, some _) =>
                    { st := st1,
                      migratedDays := acc.migratedDays + 1,
                      migratedSales := acc.migratedSales + parsed.sales.length,
                      skippedDays := acc.skippedDays }
    | _ => acc

/-- Insert today's chunk-derived sales rows: row `i` gets `seq = i + 1`,
`kg = parseFloat(gas) || 0` and `price = parseFloat(price) || kg * unitPrice`. -/
def insertChunkSales (st : SalesDB) (dayId : Nat) (unitPrice : Rat)
    (validSales : List ChunkRow) : SalesDB :=
  (validSales.enum).foldl
    (fun s p =>
      let kg := p.2.gas
      let price := if p.2.price = 0 then kg * unitPrice else p.2.price
      DBSales.insertSale s dayId (Int.ofNat (p.1 + 1)) kg price p.2.comments)
    st

/-- Step 4 of `Migrate.run`: when chunk keys exist and no Day for today is
present, read `salesMeta`, concatenate the chunk arrays in index order,
keep the rows with positive `gas` and, if any remain, insert today's Day
and its sales. -/
def migrateChunks (kvs : List (String × LVal)) (todayDate : String)
    (chunkKeys : List String) (acc : LoopSt) : LoopSt :=
  if chunkKeys.isEmpty then acc
  else
    let meta :=
      match lookupLVal kvs "salesMeta" with
      | some (LVal.vmeta m) => some m
      | _ => none
    if (DBSales.getDay acc.st todayDate).isSome then acc
    else
      let unitPrice := match meta with | some m => m.unitPrice | none => (0 : Rat)
      let openStock := match meta with | some m => m.newStock | none => (0 : Rat)
      let allSales := chunkKeys.foldl
        (fun l k =>
          match lookupLVal kvs k with
          | some (LVal.varr rows) => l ++ rows
          | _ => l) []
      let validSales := allSales.filter (fun r => decide (0 < r.gas))
      if validSales.isEmpty then acc
      else
        let r := DBSales.insertDayIgnore acc.st todayDate openStock unitPrice
        if r.2 = 0 then { acc with st := r.1 }
        else
          { acc with st := insertChunkSales r.1 r.2 unitPrice validSales,
                     migratedDays := acc.migratedDays + 1,
                     migratedSales := acc.migratedSales + validSales.length }

/-- The four result shapes of `Migrate.run`: `{skipped: true}`,
`{migrated: 0, skipped: true}` (store unreachable), `{migrated: 0}` (store
empty) and the final `{migrated, sales, skipped}` summary. -/
inductive MigResult where
  | skippedAlready : MigResult
  | noStore : MigResult
  | emptyStore : MigResult
  | summary (migrated sales skipped : Nat) : MigResult
deriving DecidableEq

/-- The `skipped` counter of a summary result. -/
def skippedOf : MigResult → Nat
  | MigResult.summary _ _ k => k
  | _ => 0

/-- `Migrate.run()` from `migrate.js`.  `legacy` is `none` when
`store.keys()` throws (store unreachable), otherwise the key/value pairs of
the legacy store; `todayDate` is `DB.today()`. -/
def run (legacy : Option (List (String × LVal))) (todayDate : String)
    (st : SalesDB) : MigResult × SalesDB :=
  if isDone st then (MigResult.skippedAlready, st)
  else
    match legacy with
    | none => (MigResult.noStore, DBSales.saveSetting st MIGRATION_DONE_KEY "1")
    | some kvs =>
        let allKeys := kvs.map Prod.fst
        if allKeys.isEmpty then
          (MigResult.emptyStore, DBSales.saveSetting st MIGRATION_DONE_KEY "1")
        else
          let acc1 := (sortedDailyKeys allKeys).foldl (migrateDailyKey kvs) ⟨st, 0, 0, 0⟩
          let acc2 := migrateChunks kvs todayDate (sortedChunkKeys allKeys) acc1
          (MigResult.summary acc2.migratedDays acc2.migratedSales acc2.skippedDays,
            DBSales.saveSetting acc2.st MIGRATION_DONE_KEY "1")

end Migrate

namespace Migrate

theorem find?_map_upsert (l : List (String × String)) (k v : String)
    (h : (l.find? (fun p => p.1 == k)).isSome = true) :
    ((l.map (fun p => if p.1 == k then (p.1, v) else p)).find?
      (fun p => p.1 == k)).map Prod.snd = some v := by
  induction l with
  | nil => simp [List.find?] at h
  | cons p ps ih =>
      by_cases hp : (p.1 == k) = true
      · simp [List.find?, hp]
      · rw [List.find?_cons] at h
        simp only [hp, Bool.false_eq_true] at h
        simp only [List.map_cons, List.find?]
        rw [if_neg (by simpa using hp)]
        simp only [hp, Bool.false_eq_true]
        exact ih h

theorem find?_append_setting (l : List (String × String)) (k v : String)
    (h : l.find? (fun p => p.1 == k) = none) :
    (((l ++ [(k, v)]).find? (fun p => p.1 == k)).map Prod.snd) = some v := by
  induction l with
  | nil => simp [List.find?]
  | cons p ps ih =>
      rw [List.find?_cons] at h
      by_cases hp : (p.1 == k) = true
      · simp [hp] at h
      · simp only [hp, Bool.false_eq_true] at h
        simp only [List.cons_append, List.find?, hp]
        exact ih h

/-- After `saveSetting(key, value)` the setting reads back as `value`. -/
theorem getSetting_saveSetting (st : SalesDB) (k v : String) :
    DBSales.getSetting (DBSales.saveSetting st k v) k = some v := by
  rw [DBSales.saveSetting]
  by_cases h : (st.settings.find? (fun p => p.1 == k)).isSome = true
  · rw [if_pos h]
    exact find?_map_upsert st.settings k v h
  · rw [if_neg h]
    have hn : st.settings.find? (fun p => p.1 == k) = none :=
      Option.not_isSome_iff_eq_none.mp h
    exact find?_append_setting st.settings k v hn

/-- Every path of `Migrate.run` returns a state on which `isDone` holds. -/
theorem isDone_after_run (legacy : Option (List (String × LVal)))
    (todayDate : String) (st : SalesDB) :
    isDone (run legacy todayDate st).2 = true := by
  rw [run.eq_def]
  by_cases h : isDone st = true
  · rw [if_pos h]
    exact h
  · rw [if_neg h]
    cases legacy with
    | none => simp [isDone, getSetting_saveSetting]
    | some kvs =>
        by_cases hk : (kvs.map Prod.fst).isEmpty = true <;>
          simp [hk, isDone, getSetting_saveSetting]

/-- A run on a done state skips with no side effects. -/
theorem run_of_done (legacy : Option (List (String × LVal)))
    (todayDate : String) (st : SalesDB) (h : isDone st = true) :
    run legacy todayDate st = (MigResult.skippedAlready, st) := by
  rw [run.eq_def, if_pos h]

end Migrate

/-- C6: on every execution of `Migrate.run`, the migration marker is `"1"`
when the function returns (set on every non-early-return path); an
unreachable legacy store (`store.keys()` throws) and an empty store are
treated as successful zero-count no-op migrations, with the marker still
set. -/
theorem c6_marker_unconditionally_set (legacy : Option (List (String × Migrate.LVal)))
    (todayDate : String) (st : SalesDB) :
    Migrate.isDone (Migrate.run legacy todayDate st).2 = true ∧
    (Migrate.isDone st = false → legacy = none →
        Migrate.run legacy todayDate st =
          (Migrate.MigResult.noStore,
            DBSales.saveSetting st Migrate.MIGRATION_DONE_KEY "1")) ∧
    (Migrate.isDone st = false → ∀ kvs, legacy = some kvs → kvs = [] →
        Migrate.run legacy todayDate st =
          (Migrate.MigResult.emptyStore,
            DBSales.saveSetting st Migrate.MIGRATION_DONE_KEY "1")) := by
  refine ⟨Migrate.isDone_after_run legacy todayDate st, ?_, ?_⟩
  · intro h hleg
    subst hleg
    simp [Migrate.run.eq_def, h]
  · intro h kvs hleg hnil
    subst hleg
    subst hnil
    simp [Migrate.run.eq_def, h]

/-- Closed witness for `c6_marker_unconditionally_set`: an unreachable
legacy store on a fresh database still sets the marker and reports the
zero-count result. -/
theorem c6_marker_unconditionally_set_witness :
    Migrate.run (none : Option (List (String × Migrate.LVal))) "2026-01-01"
        ⟨[], [], [], 1, 1, 0⟩ =
      (Migrate.MigResult.noStore,
        DBSales.saveSetting ⟨[], [], [], 1, 1, 0⟩ Migrate.MIGRATION_DONE_KEY "1") :=
  (c6_marker_unconditionally_set none "2026-01-01" ⟨[], [], [], 1, 1, 0⟩).2.1
    (by decide) rfl

/-- The Day rows carrying a given date. -/
def daysWith (st : SalesDB) (date : String) : List Day :=
  st.days.filter (fun d => d.date == date)

namespace Migrate

theorem foldl_insertSale_days (cs : List CsvSale) (st : SalesDB) (dayId : Nat) :
    (cs.foldl (fun s c => DBSales.insertSale s dayId c.seq c.kg c.price c.comments) st).days
      = st.days := by
  induction cs generalizing st with
  | nil => rfl
  | cons c rest ih => rw [List.foldl_cons, ih]; rfl

theorem foldl_insertSale_settings (cs : List CsvSale) (st : SalesDB) (dayId : Nat) :
    (cs.foldl (fun s c => DBSales.insertSale s dayId c.seq c.kg c.price c.comments) st).settings
      = st.settings := by
  induction cs generalizing st with
  | nil => rfl
  | cons c rest ih => rw [List.foldl_cons, ih]; rfl

theorem insertParsedDay_days (st : SalesDB) (date : String) (parsed : CsvParsed)
    (h : DBSales.getDay st date = none) :
    (insertParsedDay st date parsed).1.days =
      st.days ++ [⟨st.nextDayId, date, parsed.openingStock, parsed.unitPrice⟩] := by
  rw [insertParsedDay]
  have hig : DBSales.insertDayIgnore st date parsed.openingStock parsed.unitPrice =
      DBSales.insertDay st date parsed.openingStock parsed.unitPrice := by
    rw [DBSales.insertDayIgnore, if_neg (by simp [h])]
  rw [hig]
  by_cases hz : st.nextDayId = 0 <;>
    simp [DBSales.insertDay, hz, foldl_insertSale_days]

theorem insertChunkSales_days (rows : List (Nat × ChunkRow)) (st : SalesDB)
    (dayId : Nat) (up : Rat) :
    (rows.foldl
        (fun s p =>
          let kg := p.2.gas
          let price := if p.2.price = 0 then kg * up else p.2.price
          DBSales.insertSale s dayId (Int.ofNat (p.1 + 1)) kg price p.2.comments)
        st).days = st.days := by
  induction rows generalizing st with
  | nil => rfl
  | cons r rest ih => rw [List.foldl_cons, ih]; rfl

/-- `migrateDailyKey` leaves the days table unchanged or appends exactly one
Day row carrying the key's date, and only when that date was absent. -/
theorem migrateDailyKey_days_shape (kvs : List (String × LVal)) (acc : LoopSt)
    (key : String) :
    (migrateDailyKey kvs acc key).st.days = acc.st.days ∨
    (DBSales.getDay acc.st (dateOfKey key) = none ∧ ∃ os up,
        (migrateDailyKey kvs acc key).st.days =
          acc.st.days ++ [⟨acc.st.nextDayId, dateOfKey key, os, up⟩]) := by
  rw [migrateDailyKey]
  by_cases h : (DBSales.getDay acc.st (dateOfKey key)).isSome = true
  · left
    simp [h]
  · have hnone : DBSales.getDay acc.st (dateOfKey key) = none :=
      Option.not_isSome_iff_eq_none.mp h
    rw [if_neg (by simp [h])]
    cases hl : lookupLVal kvs key with
    | none => left; rfl
    | some v =>
        cases v with
        | varr rows => left; rfl
        | vmeta m => left; rfl
        | vstr csv =>
            dsimp only
            by_cases hcsv : csv = ""
            · left; simp [hcsv]
            · rw [if_neg hcsv]
              cases hp : _parseCSV csv with
              | none => left; rfl
              | some parsed =>
                  dsimp only
                  by_cases hs : parsed.sales.isEmpty = true
                  · left; simp [hs]
                  · rw [if_neg (by simp [hs])]
                    right
                    refine ⟨hnone, parsed.openingStock, parsed.unitPrice, ?_⟩
                    have hd := insertParsedDay_days acc.st (dateOfKey key) parsed hnone
                    cases hip : insertParsedDay acc.st (dateOfKey key) parsed with
                    | mk st1 dayId? =>
                        cases dayId? with
                        | none => simpa [hip] using hd
                        | some i => simpa [hip] using hd

/-- `migrateDailyKey` bumps `skippedDays` exactly when the key's date already
has a Day row. -/
theorem migrateDailyKey_skipped (kvs : List (String × LVal)) (acc : LoopSt)
    (key : String) :
    (migrateDailyKey kvs acc key).skippedDays =
      acc.skippedDays +
        (if (DBSales.getDay acc.st (dateOfKey key)).isSome = true then 1 else 0) := by
  rw [migrateDailyKey]
  by_cases h : (DBSales.getDay acc.st (dateOfKey key)).isSome = true
  · simp [h]
  · rw [if_neg (by simp [h]), if_neg h]
    cases hl : lookupLVal kvs key with
    | none => rfl
    | some v =>
        cases v with
        | varr rows => rfl
        | vmeta m => rfl
        | vstr csv =>
            dsimp only
            by_cases hcsv : csv = ""
            · simp [hcsv]
            · rw [if_neg hcsv]
              cases hp : _parseCSV csv with
              | none => rfl
              | some parsed =>
                  dsimp only
                  by_cases hs : parsed.sales.isEmpty = true
                  · simp [hs]
                  · rw [if_neg (by simp [hs])]
                    cases hip : insertParsedDay acc.st (dateOfKey key) parsed with
                    | mk st1 dayId? => cases dayId? <;> rfl

end Migrate

namespace Migrate

theorem getDay_eq_of_days_eq (st st' : SalesDB) (h : st'.days = st.days) (d : String) :
    DBSales.getDay st' d = DBSales.getDay st d := by
  rw [DBSales.getDay, DBSales.getDay, h]

theorem daysWith_eq_of_days_eq (st st' : SalesDB) (h : st'.days = st.days) (d : String) :
    daysWith st' d = daysWith st d := by
  rw [daysWith, daysWith, h]

theorem getDay_isSome_append (st st' : SalesDB) (nd : Day)
    (hd : st'.days = st.days ++ [nd]) (d : String)
    (h : (DBSales.getDay st d).isSome = true) :
    (DBSales.getDay st' d).isSome = true := by
  rw [DBSales.getDay, hd, List.find?_append]
  rw [DBSales.getDay] at h
  cases hf : st.days.find? (fun x => x.date == d) with
  | none => rw [hf] at h; simp at h
  | some x => simp [hf]

theorem getDay_none_append (st st' : SalesDB) (nd : Day)
    (hd : st'.days = st.days ++ [nd]) (d : String)
    (hnd : (nd.date == d) = false) (h : DBSales.getDay st d = none) :
    DBSales.getDay st' d = none := by
  rw [DBSales.getDay, hd, List.find?_append]
  rw [DBSales.getDay] at h
  rw [h]
  simp [List.find?, hnd]

theorem daysWith_append (st st' : SalesDB) (nd : Day)
    (hd : st'.days = st.days ++ [nd]) (d : String)
    (hnd : (nd.date == d) = false) :
    daysWith st' d = daysWith st d := by
  rw [daysWith, daysWith, hd, List.filter_append]
  simp [hnd]

/-- The appended day of `migrateDailyKey` has a date that was absent, so a
date that is present keeps exactly its rows, and stays present. -/
theorem migrateDailyKey_preserves (kvs : List (String × LVal)) (acc : LoopSt)
    (key : String) (d : String)
    (h : (DBSales.getDay acc.st d).isSome = true) :
    (DBSales.getDay (migrateDailyKey kvs acc key).st d).isSome = true ∧
    daysWith (migrateDailyKey kvs acc key).st d = daysWith acc.st d := by
  rcases migrateDailyKey_days_shape kvs acc key with heq | ⟨hnone, os, up, happ⟩
  · exact ⟨by rw [getDay_eq_of_days_eq acc.st _ heq]; exact h,
      daysWith_eq_of_days_eq acc.st _ heq d⟩
  · have hnd : ((⟨acc.st.nextDayId, dateOfKey key, os, up⟩ : Day).date == d) = false := by
      simp only
      by_cases hx : dateOfKey key = d
      · rw [hx] at hnone
        rw [hnone] at h
        simp at h
      · simpa using hx
    exact ⟨getDay_isSome_append acc.st _ _ happ d h,
      daysWith_append acc.st _ _ happ d hnd⟩

/-- A date absent both initially and currently stays absent across a step
whose key has a different date. -/
theorem migrateDailyKey_absent (kvs : List (String × LVal)) (acc : LoopSt)
    (key : String) (d : String) (hne : dateOfKey key ≠ d)
    (h : DBSales.getDay acc.st d = none) :
    DBSales.getDay (migrateDailyKey kvs acc key).st d = none := by
  rcases migrateDailyKey_days_shape kvs acc key with heq | ⟨hnone, os, up, happ⟩
  · rw [getDay_eq_of_days_eq acc.st _ heq]
    exact h
  · exact getDay_none_append acc.st _ _ happ d (by simpa using hne) h

/-- Day-preservation across the whole historical loop. -/
theorem dailyLoop_preserves (kvs : List (String × LVal)) (st0 : SalesDB) :
    ∀ (ks : List String) (acc : LoopSt),
      (∀ d, (DBSales.getDay st0 d).isSome = true →
          (DBSales.getDay acc.st d).isSome = true ∧ daysWith acc.st d = daysWith st0 d) →
      ∀ d, (DBSales.getDay st0 d).isSome = true →
        (DBSales.getDay (ks.foldl (migrateDailyKey kvs) acc).st d).isSome = true ∧
          daysWith (ks.foldl (migrateDailyKey kvs) acc).st d = daysWith st0 d
  | [], acc, hinv, d, hd => hinv d hd
  | k :: rest, acc, hinv, d, hd => by
      rw [List.foldl_cons]
      refine dailyLoop_preserves kvs st0 rest (migrateDailyKey kvs acc k) ?_ d hd
      intro d' hd'
      have h1 := hinv d' hd'
      have h2 := migrateDailyKey_preserves kvs acc k d' h1.1
      exact ⟨h2.1, h2.2.trans h1.2⟩

/-- Skip accounting across the whole historical loop: with pairwise distinct
key dates, `skippedDays` counts exactly the keys whose date already had a
Day row before the run. -/
theorem dailyLoop_count (kvs : List (String × LVal)) (st0 : SalesDB) :
    ∀ (ks : List String) (acc : LoopSt),
      (∀ d, (DBSales.getDay st0 d).isSome = true →
          (DBSales.getDay acc.st d).isSome = true) →
      (∀ k ∈ ks, DBSales.getDay st0 (dateOfKey k) = none →
          DBSales.getDay acc.st (dateOfKey k) = none) →
      (ks.map dateOfKey).Nodup →
      (ks.foldl (migrateDailyKey kvs) acc).skippedDays =
        acc.skippedDays +
          ks.countP (fun k => (DBSales.getDay st0 (dateOfKey k)).isSome)
  | [], acc, _, _, _ => by simp
  | k :: rest, acc, hgrow, habsent, hnodup => by
      rw [List.foldl_cons]
      have hnodup' : (rest.map dateOfKey).Nodup := (List.nodup_cons.mp hnodup).2
      have hknotin : dateOfKey k ∉ rest.map dateOfKey := (List.nodup_cons.mp hnodup).1
      have hstep := migrateDailyKey_skipped kvs acc k
      have hrec := dailyLoop_count kvs st0 rest (migrateDailyKey kvs acc k)
        (fun d hd => (migrateDailyKey_preserves kvs acc k d (hgrow d hd)).1)
        (fun k' hk' habs => by
          have hne : dateOfKey k ≠ dateOfKey k' := by
            intro hx
            exact hknotin (hx ▸ List.mem_map_of_mem dateOfKey hk')
          exact migrateDailyKey_absent kvs acc k (dateOfKey k') hne
            (habsent k' (List.mem_cons_of_mem k hk') habs))
        hnodup'
      rw [hrec, hstep, List.countP_cons]
      by_cases hk : (DBSales.getDay st0 (dateOfKey k)).isSome = true
      · have : (DBSales.getDay acc.st (dateOfKey k)).isSome = true := hgrow _ hk
        simp [hk, this]
        omega
      · have h0 : DBSales.getDay st0 (dateOfKey k) = none :=
          Option.not_isSome_iff_eq_none.mp hk
        have : DBSales.getDay acc.st (dateOfKey k) = none :=
          habsent k (List.mem_cons_self k rest) h0
        simp [hk, this]

end Migrate

namespace Migrate

theorem insertChunkSales_days_eq (st : SalesDB) (dayId : Nat) (up : Rat)
    (rows : List ChunkRow) :
    (insertChunkSales st dayId up rows).days = st.days := by
  rw [insertChunkSales]
  exact insertChunkSales_days rows.enum st dayId up

theorem insertDayIgnore_days_none (st : SalesDB) (date : String) (os up : Rat)
    (h : DBSales.getDay st date = none) :
    (DBSales.insertDayIgnore st date os up).1.days =
      st.days ++ [⟨st.nextDayId, date, os, up⟩] := by
  rw [DBSales.insertDayIgnore, if_neg (by simp [h])]
  rfl

/-- `migrateChunks` leaves the days table unchanged or appends exactly one
Day row for today, and only when today was absent. -/
theorem migrateChunks_days_shape (kvs : List (String × LVal)) (todayDate : String)
    (chunkKeys : List String) (acc : LoopSt) :
    (migrateChunks kvs todayDate chunkKeys acc).st.days = acc.st.days ∨
    (DBSales.getDay acc.st todayDate = none ∧ ∃ os up,
        (migrateChunks kvs todayDate chunkKeys acc).st.days =
          acc.st.days ++ [⟨acc.st.nextDayId, todayDate, os, up⟩]) := by
  rw [migrateChunks]
  by_cases hck : chunkKeys.isEmpty = true
  · left; simp [hck]
  · rw [if_neg hck]
    by_cases ht : (DBSales.getDay acc.st todayDate).isSome = true
    · left; simp [ht]
    · have hnone : DBSales.getDay acc.st todayDate = none :=
        Option.not_isSome_iff_eq_none.mp ht
      rw [if_neg ht]
      dsimp only
      split
      · left; rfl
      · split
        · right
          exact ⟨hnone, _, _, insertDayIgnore_days_none acc.st todayDate _ _ hnone⟩
        · right
          refine ⟨hnone, ?_⟩
          rw [insertChunkSales_days_eq]
          exact ⟨_, _, insertDayIgnore_days_none acc.st todayDate _ _ hnone⟩

end Migrate

namespace Migrate

theorem migrateChunks_skipped (kvs : List (String × LVal)) (todayDate : String)
    (chunkKeys : List String) (acc : LoopSt) :
    (migrateChunks kvs todayDate chunkKeys acc).skippedDays = acc.skippedDays := by
  rw [migrateChunks]
  by_cases hck : chunkKeys.isEmpty = true
  · simp [hck]
  · rw [if_neg hck]
    by_cases ht : (DBSales.getDay acc.st todayDate).isSome = true
    · simp [ht]
    · rw [if_neg ht]
      dsimp only
      split
      · rfl
      · split <;> rfl

theorem migrateChunks_preserves (kvs : List (String × LVal)) (todayDate : String)
    (chunkKeys : List String) (acc : LoopSt) (d : String)
    (h : (DBSales.getDay acc.st d).isSome = true) :
    (DBSales.getDay (migrateChunks kvs todayDate chunkKeys acc).st d).isSome = true ∧
    daysWith (migrateChunks kvs todayDate chunkKeys acc).st d = daysWith acc.st d := by
  rcases migrateChunks_days_shape kvs todayDate chunkKeys acc with heq | ⟨hnone, os, up, happ⟩
  · exact ⟨by rw [getDay_eq_of_days_eq acc.st _ heq]; exact h,
      daysWith_eq_of_days_eq acc.st _ heq d⟩
  · have hnd : ((⟨acc.st.nextDayId, todayDate, os, up⟩ : Day).date == d) = false := by
      simp only
      by_cases hx : todayDate = d
      · rw [hx] at hnone
        rw [hnone] at h
        simp at h
      · simpa using hx
    exact ⟨getDay_isSome_append acc.st _ _ happ d h,
      daysWith_append acc.st _ _ happ d hnd⟩

theorem saveSetting_days (st : SalesDB) (k v : String) :
    (DBSales.saveSetting st k v).days = st.days := by
  rw [DBSales.saveSetting]
  split <;> rfl

end Migrate

/-- C2: after any completed run of the importer, a second run against the
same legacy data returns `{skipped: true}` with the state unchanged, so Day
and Sale counts after the second run equal those after the first; moreover
any date that already has a Day row keeps exactly its rows across a run, and
(for pairwise distinct key dates) `skippedDays` counts exactly the daily
keys whose date already had a Day row. -/
theorem c2_idempotent_import (legacy : Option (List (String × Migrate.LVal)))
    (todayDate : String) (st : SalesDB) :
    (Migrate.run legacy todayDate (Migrate.run legacy todayDate st).2 =
        (Migrate.MigResult.skippedAlready, (Migrate.run legacy todayDate st).2)) ∧
    ((Migrate.run legacy todayDate (Migrate.run legacy todayDate st).2).2.days.length =
        (Migrate.run legacy todayDate st).2.days.length ∧
      (Migrate.run legacy todayDate (Migrate.run legacy todayDate st).2).2.sales.length =
        (Migrate.run legacy todayDate st).2.sales.length) ∧
    (∀ d, (DBSales.getDay st d).isSome = true →
        daysWith (Migrate.run legacy todayDate st).2 d = daysWith st d) ∧
    (∀ kvs, legacy = some kvs → Migrate.isDone st = false →
        (kvs.map Prod.fst).isEmpty = false →
        ((Migrate.sortedDailyKeys (kvs.map Prod.fst)).map Migrate.dateOfKey).Nodup →
        Migrate.skippedOf (Migrate.run legacy todayDate st).1 =
          (Migrate.sortedDailyKeys (kvs.map Prod.fst)).countP
            (fun k => (DBSales.getDay st (Migrate.dateOfKey k)).isSome)) := by
  have hsecond :
      Migrate.run legacy todayDate (Migrate.run legacy todayDate st).2 =
        (Migrate.MigResult.skippedAlready, (Migrate.run legacy todayDate st).2) :=
    Migrate.run_of_done legacy todayDate _ (Migrate.isDone_after_run legacy todayDate st)
  refine ⟨hsecond, by rw [hsecond]; exact ⟨rfl, rfl⟩, ?_, ?_⟩
  · intro d hd
    rw [Migrate.run.eq_def]
    by_cases hdone : Migrate.isDone st = true
    · rw [if_pos hdone]
    · rw [if_neg hdone]
      cases legacy with
      | none =>
          exact Migrate.daysWith_eq_of_days_eq st _ (Migrate.saveSetting_days st _ _) d
      | some kvs =>
          by_cases hk : (kvs.map Prod.fst).isEmpty = true
          · simp only [hk, if_true]
            exact Migrate.daysWith_eq_of_days_eq st _ (Migrate.saveSetting_days st _ _) d
          · simp only [hk, Bool.false_eq_true, if_false]
            have hloop := Migrate.dailyLoop_preserves kvs st
              (Migrate.sortedDailyKeys (kvs.map Prod.fst)) ⟨st, 0, 0, 0⟩
              (fun d' hd' => ⟨hd', rfl⟩) d hd
            have hchunk := Migrate.migrateChunks_preserves kvs todayDate
              (Migrate.sortedChunkKeys (kvs.map Prod.fst))
              ((Migrate.sortedDailyKeys (kvs.map Prod.fst)).foldl
                (Migrate.migrateDailyKey kvs) ⟨st, 0, 0, 0⟩) d hloop.1
            calc daysWith (DBSales.saveSetting (Migrate.migrateChunks kvs todayDate
                    (Migrate.sortedChunkKeys (kvs.map Prod.fst))
                    ((Migrate.sortedDailyKeys (kvs.map Prod.fst)).foldl
                      (Migrate.migrateDailyKey kvs) ⟨st, 0, 0, 0⟩)).st
                    Migrate.MIGRATION_DONE_KEY "1") d
                = daysWith (Migrate.migrateChunks kvs todayDate
                    (Migrate.sortedChunkKeys (kvs.map Prod.fst))
                    ((Migrate.sortedDailyKeys (kvs.map Prod.fst)).foldl
                      (Migrate.migrateDailyKey kvs) ⟨st, 0, 0, 0⟩)).st d :=
                  Migrate.daysWith_eq_of_days_eq _ _ (Migrate.saveSetting_days _ _ _) d
              _ = daysWith ((Migrate.sortedDailyKeys (kvs.map Prod.fst)).foldl
                    (Migrate.migrateDailyKey kvs) ⟨st, 0, 0, 0⟩).st d := hchunk.2
              _ = daysWith st d := hloop.2
  · intro kvs hleg hdone hne hnodup
    subst hleg
    rw [Migrate.run.eq_def, if_neg (by simp [hdone])]
    simp only [hne, Bool.false_eq_true, if_false]
    rw [Migrate.skippedOf]
    rw [Migrate.migrateChunks_skipped]
    rw [Migrate.dailyLoop_count kvs st (Migrate.sortedDailyKeys (kvs.map Prod.fst))
      ⟨st, 0, 0, 0⟩ (fun d hd => hd) (fun k _ h => h) hnodup]
    simp

/-- Closed witness for `c2_idempotent_import`: a store holding one daily key
whose date already has a Day row reports exactly one skipped day. -/
theorem c2_idempotent_import_witness :
    Migrate.skippedOf (Migrate.run
        (some [("dailySales_2024-01-01", Migrate.LVal.vstr "1,5,100,Paid")])
        "2024-06-01" ⟨[⟨1, "2024-01-01", 5, 2⟩], [], [], 2, 1, 1⟩).1 = 1 := by
  have h := (c2_idempotent_import
      (some [("dailySales_2024-01-01", Migrate.LVal.vstr "1,5,100,Paid")])
      "2024-06-01" ⟨[⟨1, "2024-01-01", 5, 2⟩], [], [], 2, 1, 1⟩).2.2.2
    [("dailySales_2024-01-01", Migrate.LVal.vstr "1,5,100,Paid")] rfl
    (by decide) (by decide) (by decide)
  rw [h]
  decide

namespace DBSales

/-- `ORDER BY seq ASC` on a list of sales rows. -/
def sortBySeq (l : List Sale) : List Sale :=
  l.mergeSort (fun a b => decide (a.seq ≤ b.seq))

/-- `UPDATE sales SET seq = ? WHERE id = ?`. -/
def updateSeqById (sales : List Sale) (newSeq : Int) (id : Nat) : List Sale :=
  sales.map (fun s => if s.id = id then { s with seq := newSeq } else s)

/-- `deleteSale(saleId, dayId)` from `db-sales.js`: inside a transaction,
`DELETE FROM sales WHERE id = ?`, re-select the day's remaining rows
`ORDER BY seq ASC`, and set `seq = i + 1` on the `i`-th row. -/
def deleteSale (st : SalesDB) (saleId dayId : Nat) : SalesDB :=
  let sales1 := st.sales.filter (fun s => !(s.id == saleId))
  let rows := sortBySeq (sales1.filter (fun s => s.day_id == dayId))
  let sales2 := rows.enum.foldl
    (fun acc p => updateSeqById acc (Int.ofNat (p.1 + 1)) p.2.id) sales1
  { st with sales := sales2 }

/-- `addSale(dayId, …)` from `db-sales.js`: `seq` is
`COALESCE(MAX(seq), 0) + 1` for the day (`|| 1` when that is falsy), then the
row is inserted; returns the new state with the id and seq. -/
def addSale (st : SalesDB) (dayId : Nat) (kg price : Rat) (comments : String) :
    SalesDB × Nat × Int :=
  let seqs := (st.sales.filter (fun s => s.day_id == dayId)).map Sale.seq
  let next : Int := (match seqs.max? with | some m => m | none => 0) + 1
  let seq := if next = 0 then 1 else next
  (insertSale st dayId seq kg price comments, st.nextSaleId, seq)

/-- The day's seq values in `ORDER BY seq ASC` order. -/
def seqsOfDay (st : SalesDB) (dayId : Nat) : List Int :=
  (sortBySeq (salesOfDay st dayId)).map Sale.seq

/-- The dense sequence `1..n` as `Int`s. -/
def denseSeqs (n : Nat) : List Int := (List.range' 1 n).map Int.ofNat

end DBSales

/-- C8 counterexample: importing the historical CSV `"2,5,100,Paid"` (its only
positive-quantity row carries `S/NO` 2) yields a Day whose single Sale has
`seq = 2`, so the importer-inserted Day violates the dense `1..count`
invariant. -/
theorem c8_counterexample :
    DBSales.seqsOfDay (Migrate.run
        (some [("dailySales_2024-01-01", Migrate.LVal.vstr "2,5,100,Paid")])
        "2024-06-01" ⟨[], [], [], 1, 1, 0⟩).2 1 ≠
      DBSales.denseSeqs (DBSales.seqsOfDay (Migrate.run
        (some [("dailySales_2024-01-01", Migrate.LVal.vstr "2,5,100,Paid")])
        "2024-06-01" ⟨[], [], [], 1, 1, 0⟩).2 1).length := by decide

namespace DBSales

/-- Composite effect on a single row of the sequence of `UPDATE … WHERE id`
statements issued by `deleteSale`. -/
def applyUpds (us : List (Nat × Sale)) (s : Sale) : Sale :=
  us.foldl (fun t p => if t.id = p.2.id then { t with seq := Int.ofNat (p.1 + 1) } else t) s

theorem foldl_updateSeqById (us : List (Nat × Sale)) (sales : List Sale) :
    us.foldl (fun acc p => updateSeqById acc (Int.ofNat (p.1 + 1)) p.2.id) sales =
      sales.map (applyUpds us) := by
  induction us generalizing sales with
  | nil =>
      simp only [List.foldl_nil]
      have h1 : sales.map (applyUpds []) = sales.map id :=
        List.map_congr_left (fun s _ => rfl)
      rw [h1, List.map_id]
  | cons u rest ih =>
      rw [List.foldl_cons, updateSeqById, ih, List.map_map]
      rfl

theorem applyUpds_fields (us : List (Nat × Sale)) (s : Sale) :
    (applyUpds us s).id = s.id ∧ (applyUpds us s).day_id = s.day_id := by
  induction us generalizing s with
  | nil => exact ⟨rfl, rfl⟩
  | cons u rest ih =>
      rw [applyUpds, List.foldl_cons]
      by_cases h : s.id = u.2.id
      · rw [if_pos h]
        exact ih _
      · rw [if_neg h]
        exact ih s

theorem applyUpds_not_mem (us : List (Nat × Sale)) (s : Sale)
    (h : ∀ p ∈ us, p.2.id ≠ s.id) : applyUpds us s = s := by
  induction us with
  | nil => rfl
  | cons u rest ih =>
      rw [applyUpds, List.foldl_cons,
        if_neg (fun hx => h u (List.mem_cons_self u rest) hx.symm)]
      exact ih (fun p hp => h p (List.mem_cons_of_mem u hp))

theorem applyUpds_enumFrom_not_mem (n : Nat) (rows : List Sale) (s : Sale)
    (h : s.id ∉ rows.map Sale.id) :
    applyUpds (List.enumFrom n rows) s = s := by
  induction rows generalizing n with
  | nil => rfl
  | cons r rest ih =>
      have hsplit : s.id ≠ r.id ∧ s.id ∉ rest.map Sale.id := by
        rw [List.map_cons] at h
        exact ⟨fun hx => h (hx ▸ List.mem_cons_self _ _),
          fun hx => h (List.mem_cons_of_mem _ hx)⟩
      rw [List.enumFrom, applyUpds, List.foldl_cons, if_neg hsplit.1]
      exact ih (n + 1) hsplit.2

/-- With pairwise distinct ids, applying all the updates to the rows
themselves relabels row `i` with `seq = i + 1`. -/
theorem map_applyUpds_enumFrom (n : Nat) (rows : List Sale)
    (hnd : (rows.map Sale.id).Nodup) :
    rows.map (applyUpds (List.enumFrom n rows)) =
      (List.enumFrom n rows).map (fun p => { p.2 with seq := Int.ofNat (p.1 + 1) }) := by
  induction rows generalizing n with
  | nil => rfl
  | cons r rest ih =>
      have hnd' : (rest.map Sale.id).Nodup := (List.nodup_cons.mp (by simpa using hnd)).2
      have hrid : r.id ∉ rest.map Sale.id := (List.nodup_cons.mp (by simpa using hnd)).1
      rw [List.enumFrom, List.map_cons, List.map_cons]
      congr 1
      · rw [applyUpds, List.foldl_cons, if_pos rfl]
        have : ({ r with seq := Int.ofNat (n + 1) } : Sale).id = r.id := rfl
        exact applyUpds_enumFrom_not_mem (n + 1) rest _ (by rw [this]; exact hrid)
      · have hstep : ∀ s ∈ rest,
            applyUpds ((n, r) :: List.enumFrom (n + 1) rest) s =
              applyUpds (List.enumFrom (n + 1) rest) s := by
          intro s hs
          rw [applyUpds, List.foldl_cons]
          have hne : s.id ≠ r.id := by
            intro hx
            exact hrid (hx ▸ List.mem_map_of_mem Sale.id hs)
          rw [if_neg hne]
          rfl
        rw [List.map_congr_left hstep]
        exact ih (n + 1) hnd'

theorem relabel_map_id (n : Nat) (rows : List Sale) :
    ((List.enumFrom n rows).map (fun p => { p.2 with seq := Int.ofNat (p.1 + 1) })).map
        Sale.id = rows.map Sale.id := by
  induction rows generalizing n with
  | nil => rfl
  | cons r rest ih =>
      rw [List.enumFrom]
      simp only [List.map_cons]
      rw [ih (n + 1)]

theorem relabel_map_seq (n : Nat) (rows : List Sale) :
    ((List.enumFrom n rows).map (fun p => { p.2 with seq := Int.ofNat (p.1 + 1) })).map
        Sale.seq = (List.range' (n + 1) rows.length).map Int.ofNat := by
  induction rows generalizing n with
  | nil => rfl
  | cons r rest ih =>
      rw [List.enumFrom]
      simp only [List.map_cons, List.length_cons, List.range'_succ]
      rw [ih (n + 1)]

theorem relabel_seq_lb (n : Nat) (rows : List Sale) :
    ∀ x ∈ (List.enumFrom n rows).map (fun p => { p.2 with seq := Int.ofNat (p.1 + 1) }),
      Int.ofNat (n + 1) ≤ x.seq := by
  induction rows generalizing n with
  | nil => intro x hx; simp [List.enumFrom] at hx
  | cons r rest ih =>
      intro x hx
      rw [List.enumFrom, List.map_cons] at hx
      rcases List.mem_cons.mp hx with hxr | hxrest
      · subst hxr
        exact le_refl _
      · have := ih (n + 1) x hxrest
        have hmono : (Int.ofNat (n + 1) : Int) ≤ Int.ofNat (n + 2) := by
          simp
        exact le_trans hmono this

theorem relabel_strict (n : Nat) (rows : List Sale) :
    ((List.enumFrom n rows).map (fun p => { p.2 with seq := Int.ofNat (p.1 + 1) })).Pairwise
      (fun a b => a.seq < b.seq) := by
  induction rows generalizing n with
  | nil => exact List.Pairwise.nil
  | cons r rest ih =>
      rw [List.enumFrom, List.map_cons]
      refine List.pairwise_cons.mpr ⟨?_, ih (n + 1)⟩
      intro x hx
      have hlb := relabel_seq_lb (n + 1) rest x hx
      have : (Int.ofNat (n + 1) : Int) < Int.ofNat (n + 2) := by simp
      exact lt_of_lt_of_le this hlb

/-- A `≤`-sorted permutation of a strictly sorted list is that list. -/
theorem perm_le_sorted_eq :
    ∀ (l₁ l₂ : List Sale), l₁.Perm l₂ →
      l₁.Pairwise (fun a b => a.seq < b.seq) →
      l₂.Pairwise (fun a b => a.seq ≤ b.seq) →
      l₂ = l₁
  | [], l₂, hp, _, _ => hp.symm.eq_nil
  | a :: l₁, l₂, hp, h₁, h₂ => by
      cases l₂ with
      | nil => exact absurd hp.symm (by simp)
      | cons b l₂ =>
          have hb : b = a := by
            have hbmem : b ∈ a :: l₁ := hp.mem_iff.mpr (List.mem_cons_self b l₂)
            rcases List.mem_cons.mp hbmem with hba | hbl
            · exact hba
            · have hamem : a ∈ b :: l₂ := hp.mem_iff.mp (List.mem_cons_self a l₁)
              rcases List.mem_cons.mp hamem with hab | hal
              · exact hab.symm
              · have hx1 : a.seq < b.seq := (List.pairwise_cons.mp h₁).1 b hbl
                have hx2 : b.seq ≤ a.seq := (List.pairwise_cons.mp h₂).1 a hal
                exact absurd (lt_of_le_of_lt hx2 hx1) (lt_irrefl _)
          subst hb
          have hp' : l₁.Perm l₂ := hp.cons_inv
          rw [perm_le_sorted_eq l₁ l₂ hp' (List.pairwise_cons.mp h₁).2
            (List.pairwise_cons.mp h₂).2]

end DBSales

namespace DBSales

theorem sortBySeq_sorted (l : List Sale) :
    (sortBySeq l).Pairwise (fun a b => a.seq ≤ b.seq) := by
  have h : (List.mergeSort l (fun a b : Sale => decide (a.seq ≤ b.seq))).Pairwise
      (fun a b : Sale => decide (a.seq ≤ b.seq) = true) :=
    List.sorted_mergeSort
      (fun a b c hab hbc => by
        simp only [decide_eq_true_eq] at *
        exact le_trans hab hbc)
      (fun a b => by
        by_cases hab : a.seq ≤ b.seq
        · simp [hab]
        · simp [le_of_not_le hab])
      l
  exact h.imp (fun hab => by simpa using hab)

theorem sortBySeq_perm (l : List Sale) : (sortBySeq l).Perm l :=
  List.mergeSort_perm l _

/-- The composite effect of `deleteSale`: the day's rows, re-read in seq
order, are exactly the seq-sorted remaining rows relabelled `1..count`. -/
theorem deleteSale_sorted_eq (st : SalesDB) (saleId dayId : Nat)
    (hnd : (st.sales.map Sale.id).Nodup) :
    sortBySeq (salesOfDay (deleteSale st saleId dayId) dayId) =
      (sortBySeq ((st.sales.filter (fun s => !(s.id == saleId))).filter
          (fun s => s.day_id == dayId))).enum.map
        (fun p => { p.2 with seq := Int.ofNat (p.1 + 1) }) := by
  set sales1 := st.sales.filter (fun s => !(s.id == saleId)) with hs1
  set rows := sortBySeq (sales1.filter (fun s => s.day_id == dayId)) with hrows
  have hsales2 : (deleteSale st saleId dayId).sales = sales1.map (applyUpds rows.enum) := by
    rw [deleteSale]
    exact foldl_updateSeqById rows.enum sales1
  have hsod : salesOfDay (deleteSale st saleId dayId) dayId =
      (sales1.filter (fun s => s.day_id == dayId)).map (applyUpds rows.enum) := by
    rw [salesOfDay, hsales2, List.filter_map]
    congr 1
    apply List.filter_congr
    intro s _
    show ((applyUpds rows.enum s).day_id == dayId) = (s.day_id == dayId)
    rw [(applyUpds_fields rows.enum s).2]
  have hnd1 : (sales1.map Sale.id).Nodup :=
    List.Nodup.sublist ((List.filter_sublist st.sales).map Sale.id) hnd
  have hnddf : ((sales1.filter (fun s => s.day_id == dayId)).map Sale.id).Nodup :=
    List.Nodup.sublist ((List.filter_sublist sales1).map Sale.id) hnd1
  have hpermrows : rows.Perm (sales1.filter (fun s => s.day_id == dayId)) :=
    sortBySeq_perm _
  have hndrows : (rows.map Sale.id).Nodup :=
    (List.Perm.nodup_iff (hpermrows.map Sale.id)).mpr hnddf
  have hrelabel : rows.map (applyUpds rows.enum) =
      rows.enum.map (fun p => { p.2 with seq := Int.ofNat (p.1 + 1) }) :=
    map_applyUpds_enumFrom 0 rows hndrows
  have hperm : (rows.enum.map (fun p => { p.2 with seq := Int.ofNat (p.1 + 1) })).Perm
      (sortBySeq (salesOfDay (deleteSale st saleId dayId) dayId)) := by
    rw [← hrelabel]
    have h1 : (rows.map (applyUpds rows.enum)).Perm
        ((sales1.filter (fun s => s.day_id == dayId)).map (applyUpds rows.enum)) :=
      hpermrows.map _
    rw [← hsod] at h1
    exact h1.trans (sortBySeq_perm _).symm
  exact perm_le_sorted_eq _ _ hperm (relabel_strict 0 rows)
    (sortBySeq_sorted _)

end DBSales

namespace DBSales

theorem denseSeqs_strict (n : Nat) : (denseSeqs n).Pairwise (· < ·) := by
  rw [denseSeqs, List.pairwise_map]
  have hr : (List.range' 1 n).Pairwise (· < ·) := by
    have : ∀ (s m : Nat), (List.range' s m).Pairwise (· < ·) := by
      intro s m
      induction m generalizing s with
      | zero => exact List.Pairwise.nil
      | succ m ih =>
          rw [List.range'_succ]
          refine List.pairwise_cons.mpr ⟨?_, ih (s + 1)⟩
          intro x hx
          rcases List.mem_range'.mp hx with ⟨i, _, hxi⟩
          omega
    exact this 1 n
  exact hr.imp (fun h => Int.ofNat_lt.mpr h)

theorem denseSeqs_le (n : Nat) : ∀ x ∈ denseSeqs n, x ≤ Int.ofNat n := by
  intro x hx
  rw [denseSeqs] at hx
  rcases List.mem_map.mp hx with ⟨k, hk, hxk⟩
  rcases List.mem_range'.mp hk with ⟨i, hi, hki⟩
  subst hxk
  exact Int.ofNat_le.mpr (by omega)

theorem mem_denseSeqs_self (n : Nat) (hn : n ≠ 0) : Int.ofNat n ∈ denseSeqs n := by
  rw [denseSeqs]
  refine List.mem_map.mpr ⟨n, ?_, rfl⟩
  exact List.mem_range'.mpr ⟨n - 1, by omega, by omega⟩

theorem max?_eq_of_perm_dense (l : List Int) (n : Nat) (hn : n ≠ 0)
    (hperm : l.Perm (denseSeqs n)) : l.max? = some (Int.ofNat n) := by
  haveI : Std.Antisymm ((· ≤ ·) : Int → Int → Prop) :=
    ⟨fun h h' => Int.le_antisymm h h'⟩
  rw [List.max?_eq_some_iff (fun a => Int.le_refl a) (fun a b => max_choice a b)
    (fun a b c => max_le_iff)]
  constructor
  · exact hperm.mem_iff.mpr (mem_denseSeqs_self n hn)
  · intro b hb
    exact denseSeqs_le n b (hperm.mem_iff.mp hb)

theorem salesOfDay_insertSale (st : SalesDB) (dayId : Nat) (seq : Int)
    (kg price : Rat) (comments : String) :
    salesOfDay (insertSale st dayId seq kg price comments) dayId =
      salesOfDay st dayId ++ [⟨st.nextSaleId, dayId, seq, kg, price, comments⟩] := by
  rw [salesOfDay, salesOfDay, insertSale]
  simp [List.filter_append]

end DBSales

namespace DBSales

theorem seqs_perm_dense (st : SalesDB) (dayId : Nat)
    (hd : seqsOfDay st dayId = denseSeqs (salesOfDay st dayId).length) :
    ((salesOfDay st dayId).map Sale.seq).Perm
      (denseSeqs (salesOfDay st dayId).length) := by
  have hp := ((sortBySeq_perm (salesOfDay st dayId)).symm).map Sale.seq
  rw [seqsOfDay] at hd
  rw [hd] at hp
  exact hp

theorem addSale_seq_eq (st : SalesDB) (dayId : Nat) (kg price : Rat) (comments : String)
    (hd : seqsOfDay st dayId = denseSeqs (salesOfDay st dayId).length) :
    (addSale st dayId kg price comments).2.2 =
      Int.ofNat ((salesOfDay st dayId).length + 1) := by
  rw [addSale]
  dsimp only
  by_cases h0 : (salesOfDay st dayId).length = 0
  · have hempty : salesOfDay st dayId = [] := List.length_eq_zero.mp h0
    have hnil : (st.sales.filter (fun s => s.day_id == dayId)).map Sale.seq = [] := by
      rw [show st.sales.filter (fun s => s.day_id == dayId) = salesOfDay st dayId from rfl,
        hempty]
      rfl
    rw [hnil]
    simp [h0, List.max?]
  · have hmax := max?_eq_of_perm_dense _ _ h0 (seqs_perm_dense st dayId hd)
    rw [show st.sales.filter (fun s => s.day_id == dayId) = salesOfDay st dayId from rfl]
    rw [hmax]
    dsimp only
    simp only [Int.ofNat_eq_coe]
    rw [if_neg (by omega : ¬ (((salesOfDay st dayId).length : Int) + 1 = 0))]
    omega

theorem insert_top_dense (st : SalesDB) (dayId : Nat) (kg price : Rat) (comments : String)
    (hd : seqsOfDay st dayId = denseSeqs (salesOfDay st dayId).length) :
    seqsOfDay (insertSale st dayId
        (Int.ofNat ((salesOfDay st dayId).length + 1)) kg price comments) dayId =
      denseSeqs ((salesOfDay st dayId).length + 1) := by
  set n := (salesOfDay st dayId).length with hn
  have hsoda := salesOfDay_insertSale st dayId (Int.ofNat (n + 1)) kg price comments
  have hpermL : (sortBySeq (salesOfDay st dayId) ++
        [(⟨st.nextSaleId, dayId, Int.ofNat (n + 1), kg, price, comments⟩ : Sale)]).Perm
      (salesOfDay (insertSale st dayId (Int.ofNat (n + 1)) kg price comments) dayId) := by
    rw [hsoda]
    exact (sortBySeq_perm _).append_right _
  have hprefix : ((sortBySeq (salesOfDay st dayId)).map Sale.seq).Pairwise (· < ·) := by
    rw [show (sortBySeq (salesOfDay st dayId)).map Sale.seq = seqsOfDay st dayId from rfl, hd]
    exact denseSeqs_strict n
  have hstrictL : (sortBySeq (salesOfDay st dayId) ++
        [(⟨st.nextSaleId, dayId, Int.ofNat (n + 1), kg, price, comments⟩ : Sale)]).Pairwise
      (fun a b => a.seq < b.seq) := by
    rw [List.pairwise_append]
    refine ⟨(List.pairwise_map).mp hprefix, List.pairwise_singleton _ _, ?_⟩
    intro a ha b hb
    have hb' : b = ⟨st.nextSaleId, dayId, Int.ofNat (n + 1), kg, price, comments⟩ := by
      simpa using hb
    subst hb'
    have hmem : a.seq ∈ (sortBySeq (salesOfDay st dayId)).map Sale.seq :=
      List.mem_map_of_mem _ ha
    rw [show (sortBySeq (salesOfDay st dayId)).map Sale.seq = seqsOfDay st dayId from rfl,
      hd] at hmem
    have hle := denseSeqs_le n a.seq hmem
    have hlt : (Int.ofNat n : Int) < Int.ofNat (n + 1) := Int.ofNat_lt.mpr (by omega)
    exact lt_of_le_of_lt hle hlt
  have hfinal := perm_le_sorted_eq _ _
    (hpermL.trans (sortBySeq_perm _).symm) hstrictL (sortBySeq_sorted _)
  rw [seqsOfDay, hfinal, List.map_append]
  rw [show (sortBySeq (salesOfDay st dayId)).map Sale.seq = seqsOfDay st dayId from rfl, hd]
  rw [denseSeqs, denseSeqs, List.range'_concat, List.map_append]
  simp
  omega

theorem seqsOfDay_of_sorted (st : SalesDB) (dayId : Nat)
    (h : (salesOfDay st dayId).Pairwise (fun a b => a.seq ≤ b.seq)) :
    seqsOfDay st dayId = (salesOfDay st dayId).map Sale.seq := by
  rw [seqsOfDay, sortBySeq,
    List.mergeSort_of_sorted (h.imp (fun hab => decide_eq_true hab))]

theorem foldl_chunk_seqs (us : List (Nat × Migrate.ChunkRow)) (st : SalesDB)
    (dayId : Nat) (up : Rat) :
    (salesOfDay (us.foldl
        (fun s p =>
          let kg := p.2.gas
          let price := if p.2.price = 0 then kg * up else p.2.price
          insertSale s dayId (Int.ofNat (p.1 + 1)) kg price p.2.comments)
        st) dayId).map Sale.seq =
      (salesOfDay st dayId).map Sale.seq ++ us.map (fun p => Int.ofNat (p.1 + 1)) := by
  induction us generalizing st with
  | nil => simp
  | cons u rest ih =>
      rw [List.foldl_cons, ih, salesOfDay_insertSale]
      simp

theorem insertChunkSales_seqs (st : SalesDB) (dayId : Nat) (up : Rat)
    (rows : List Migrate.ChunkRow) :
    (salesOfDay (Migrate.insertChunkSales st dayId up rows) dayId).map Sale.seq =
      (salesOfDay st dayId).map Sale.seq ++
        rows.enum.map (fun p => Int.ofNat (p.1 + 1)) := by
  rw [Migrate.insertChunkSales]
  exact foldl_chunk_seqs rows.enum st dayId up

theorem enumFrom_index_map {α : Type} (n : Nat) (rows : List α) :
    (List.enumFrom n rows).map (fun p => Int.ofNat (p.1 + 1)) =
      (List.range' (n + 1) rows.length).map Int.ofNat := by
  induction rows generalizing n with
  | nil => rfl
  | cons r rest ih =>
      rw [List.enumFrom, List.map_cons, List.length_cons, List.range'_succ,
        List.map_cons, ih (n + 1)]

theorem insertChunkSales_dense (st : SalesDB) (dayId : Nat) (up : Rat)
    (rows : List Migrate.ChunkRow) (h : salesOfDay st dayId = []) :
    seqsOfDay (Migrate.insertChunkSales st dayId up rows) dayId =
      denseSeqs rows.length := by
  have hseqs : (salesOfDay (Migrate.insertChunkSales st dayId up rows) dayId).map
      Sale.seq = denseSeqs rows.length := by
    rw [insertChunkSales_seqs, h]
    simp only [List.map_nil, List.nil_append]
    rw [show rows.enum = List.enumFrom 0 rows from rfl, enumFrom_index_map 0 rows]
    rfl
  have hsorted : (salesOfDay (Migrate.insertChunkSales st dayId up rows) dayId).Pairwise
      (fun a b => a.seq ≤ b.seq) := by
    have hstrict : ((salesOfDay (Migrate.insertChunkSales st dayId up rows) dayId).map
        Sale.seq).Pairwise (· < ·) := by
      rw [hseqs]
      exact denseSeqs_strict _
    exact ((List.pairwise_map).mp hstrict).imp le_of_lt
  rw [seqsOfDay_of_sorted _ _ hsorted]
  exact hseqs

theorem foldl_csvsale_seqs (cs : List Migrate.CsvSale) (st : SalesDB) (dayId : Nat) :
    (salesOfDay (cs.foldl
        (fun s c => insertSale s dayId c.seq c.kg c.price c.comments) st) dayId).map
      Sale.seq =
      (salesOfDay st dayId).map Sale.seq ++ cs.map Migrate.CsvSale.seq := by
  induction cs generalizing st with
  | nil => simp
  | cons c rest ih =>
      rw [List.foldl_cons, ih, salesOfDay_insertSale]
      simp

theorem insertParsedDay_seqs (st : SalesDB) (date : String) (parsed : Migrate.CsvParsed)
    (hnone : getDay st date = none) (hz : st.nextDayId ≠ 0)
    (hempty : salesOfDay st st.nextDayId = []) :
    (salesOfDay (Migrate.insertParsedDay st date parsed).1 st.nextDayId).map Sale.seq =
      parsed.sales.map Migrate.CsvSale.seq := by
  rw [Migrate.insertParsedDay]
  have hig : insertDayIgnore st date parsed.openingStock parsed.unitPrice =
      insertDay st date parsed.openingStock parsed.unitPrice := by
    rw [insertDayIgnore, if_neg (by simp [hnone])]
  rw [hig]
  rw [if_neg (by exact hz)]
  dsimp only
  rw [show (insertDay st date parsed.openingStock parsed.unitPrice).2 = st.nextDayId
      from rfl]
  rw [foldl_csvsale_seqs]
  rw [show salesOfDay (insertDay st date parsed.openingStock parsed.unitPrice).1
        st.nextDayId = salesOfDay st st.nextDayId from rfl]
  rw [hempty]
  rfl

theorem insertParsedDay_dense (st : SalesDB) (date : String) (parsed : Migrate.CsvParsed)
    (hnone : getDay st date = none) (hz : st.nextDayId ≠ 0)
    (hempty : salesOfDay st st.nextDayId = [])
    (hdense : parsed.sales.map Migrate.CsvSale.seq = denseSeqs parsed.sales.length) :
    seqsOfDay (Migrate.insertParsedDay st date parsed).1 st.nextDayId =
      denseSeqs parsed.sales.length := by
  have hseqs := insertParsedDay_seqs st date parsed hnone hz hempty
  have hsorted : (salesOfDay (Migrate.insertParsedDay st date parsed).1
      st.nextDayId).Pairwise (fun a b => a.seq ≤ b.seq) := by
    have hstrict : ((salesOfDay (Migrate.insertParsedDay st date parsed).1
        st.nextDayId).map Sale.seq).Pairwise (· < ·) := by
      rw [hseqs, hdense]
      exact denseSeqs_strict _
    exact ((List.pairwise_map).mp hstrict).imp le_of_lt
  rw [seqsOfDay_of_sorted _ _ hsorted, hseqs, hdense]

end DBSales

/-- C8 (amended): `deleteSale` always leaves the remaining Sales of the Day
with seq exactly `1..count` in their previous seq order; `addSale` on a
dense Day assigns `max(seq) + 1` and keeps the Day dense; the importer's
chunk path numbers today's Sales `1..N`; the importer's historical path
carries the parsed CSV's original seq numbers, so such a Day is dense
exactly when those parsed seqs are `1..count`. -/
theorem c8_dense_sequencing (st : SalesDB) :
    ((st.sales.map Sale.id).Nodup →
      ∀ saleId dayId : Nat,
        DBSales.seqsOfDay (DBSales.deleteSale st saleId dayId) dayId =
            DBSales.denseSeqs
              (DBSales.salesOfDay (DBSales.deleteSale st saleId dayId) dayId).length ∧
          (DBSales.sortBySeq
              (DBSales.salesOfDay (DBSales.deleteSale st saleId dayId) dayId)).map
              Sale.id =
            (DBSales.sortBySeq ((st.sales.filter (fun s => !(s.id == saleId))).filter
                (fun s => s.day_id == dayId))).map Sale.id) ∧
    (∀ (dayId : Nat) (kg price : Rat) (comments : String),
        DBSales.seqsOfDay st dayId =
          DBSales.denseSeqs (DBSales.salesOfDay st dayId).length →
        (DBSales.addSale st dayId kg price comments).2.2 =
            Int.ofNat ((DBSales.salesOfDay st dayId).length + 1) ∧
          DBSales.seqsOfDay (DBSales.addSale st dayId kg price comments).1 dayId =
            DBSales.denseSeqs ((DBSales.salesOfDay st dayId).length + 1)) ∧
    (∀ (dayId : Nat) (up : Rat) (rows : List Migrate.ChunkRow),
        DBSales.salesOfDay st dayId = [] →
        DBSales.seqsOfDay (Migrate.insertChunkSales st dayId up rows) dayId =
          DBSales.denseSeqs rows.length) ∧
    (∀ (date : String) (parsed : Migrate.CsvParsed),
        DBSales.getDay st date = none → st.nextDayId ≠ 0 →
        DBSales.salesOfDay st st.nextDayId = [] →
        (DBSales.salesOfDay (Migrate.insertParsedDay st date parsed).1
              st.nextDayId).map Sale.seq = parsed.sales.map Migrate.CsvSale.seq ∧
          (parsed.sales.map Migrate.CsvSale.seq =
              DBSales.denseSeqs parsed.sales.length →
            DBSales.seqsOfDay (Migrate.insertParsedDay st date parsed).1 st.nextDayId =
              DBSales.denseSeqs parsed.sales.length)) := by
  refine ⟨?_, ?_, ?_, ?_⟩
  · intro hnd saleId dayId
    have heq := DBSales.deleteSale_sorted_eq st saleId dayId hnd
    have hlen : (DBSales.salesOfDay (DBSales.deleteSale st saleId dayId) dayId).length =
        (DBSales.sortBySeq ((st.sales.filter (fun s => !(s.id == saleId))).filter
          (fun s => s.day_id == dayId))).length := by
      rw [← (DBSales.sortBySeq_perm
        (DBSales.salesOfDay (DBSales.deleteSale st saleId dayId) dayId)).length_eq]
      rw [heq]
      simp
    constructor
    · rw [DBSales.seqsOfDay, heq,
        show ((DBSales.sortBySeq ((st.sales.filter (fun s => !(s.id == saleId))).filter
            (fun s => s.day_id == dayId))).enum : List (Nat × Sale)) =
          List.enumFrom 0 (DBSales.sortBySeq
            ((st.sales.filter (fun s => !(s.id == saleId))).filter
              (fun s => s.day_id == dayId))) from rfl,
        DBSales.relabel_map_seq 0, hlen]
      rfl
    · rw [heq,
        show ((DBSales.sortBySeq ((st.sales.filter (fun s => !(s.id == saleId))).filter
            (fun s => s.day_id == dayId))).enum : List (Nat × Sale)) =
          List.enumFrom 0 (DBSales.sortBySeq
            ((st.sales.filter (fun s => !(s.id == saleId))).filter
              (fun s => s.day_id == dayId))) from rfl,
        DBSales.relabel_map_id 0]
  · intro dayId kg price comments hd
    refine ⟨DBSales.addSale_seq_eq st dayId kg price comments hd, ?_⟩
    have h1 : (DBSales.addSale st dayId kg price comments).1 =
        DBSales.insertSale st dayId ((DBSales.addSale st dayId kg price comments).2.2)
          kg price comments := rfl
    rw [h1, DBSales.addSale_seq_eq st dayId kg price comments hd]
    exact DBSales.insert_top_dense st dayId kg price comments hd
  · intro dayId up rows h
    exact DBSales.insertChunkSales_dense st dayId up rows h
  · intro date parsed hnone hz hempty
    exact ⟨DBSales.insertParsedDay_seqs st date parsed hnone hz hempty,
      fun hdense => DBSales.insertParsedDay_dense st date parsed hnone hz hempty hdense⟩

/-- Closed witness for `c8_dense_sequencing`: deleting the first of two
sales leaves the remaining one with seq exactly `1..1`. -/
theorem c8_dense_sequencing_witness :
    DBSales.seqsOfDay (DBSales.deleteSale
        ⟨[], [⟨1, 1, 1, 5, 0, ""⟩, ⟨2, 1, 2, 3, 0, ""⟩], [], 1, 3, 2⟩ 1 1) 1 =
      DBSales.denseSeqs (DBSales.salesOfDay (DBSales.deleteSale
        ⟨[], [⟨1, 1, 1, 5, 0, ""⟩, ⟨2, 1, 2, 3, 0, ""⟩], [], 1, 3, 2⟩ 1 1) 1).length :=
  ((c8_dense_sequencing ⟨[], [⟨1, 1, 1, 5, 0, ""⟩, ⟨2, 1, 2, 3, 0, ""⟩], [], 1, 3, 2⟩).1
    (by decide) 1 1).1
